import Mathlib

/-!
Verification development for the LSJ-AutoGLM phone-automation agent.

Shallow embedding of the core loop of the repository:
  * `phone_agent/actions/handler.py` — action interpreter (`ActionHandler.execute`,
    the per-action handlers, `parse_action`, the `do`/`finish` helpers);
  * `phone_agent/agent.py` — agent loop (`PhoneAgent._execute_step`, `run`,
    `reset`, `_action_signature`, `_looks_like_loop`, screen-hash tracking).

Python values that flow through action dictionaries are modelled by `PyVal`;
dictionaries with string keys (the action records) by `PyDict` with Python's
insertion-order update semantics.  Machine-level details that the claims do not
touch are modelled as follows and noted at the definition site: the SHA-1
screen fingerprint is replaced by an injective-on-used-inputs placeholder (only
equality of hashes is ever consulted), `time.sleep` durations are recorded
verbatim in the event trace, and float literals are carried as their source
text.  Exact rational arithmetic stands in for Python float arithmetic in the
coordinate scaling (`int(rel / 1000 * dim)` becomes truncated division
`Int.tdiv (rel * dim) 1000`); every concrete input used in a theorem below is
one on which double-precision evaluation and exact evaluation agree.
-/

/-- Single-quote character, used when scanning Python string literals. -/
def squote : Char := Char.ofNat 39

/-- Backslash character. -/
def bslash : Char := Char.ofNat 92

/-- Python runtime values appearing in action records (`handler.py` passes
`dict[str, Any]` whose values are ints, floats, strings, booleans, `None`,
lists, tuples and dicts produced by `ast.literal_eval` / `json.loads`).
Float literals are kept as their raw source text: no claim computes with
them. -/
inductive PyVal where
  | int (n : Int)
  | float (raw : String)
  | str (s : String)
  | bool (b : Bool)
  | none
  | list (xs : List PyVal)
  | tuple (xs : List PyVal)
  | dict (kvs : List (PyVal × PyVal))

/-- Action records: Python `dict[str, Any]` with string keys, in insertion
order (as built by `parse_action`, `do(**kwargs)` and `finish(**kwargs)`). -/
abbrev PyDict : Type := List (String × PyVal)

/-- Python `d[k] = v`: replace the binding in place when the key exists
(keys are unique in every dict this development builds, so replacing the
first occurrence is Python's behavior), else append. -/
def dictSet : PyDict → String → PyVal → PyDict
  | [], k, v => [(k, v)]
  | (k', v') :: rest, k, v =>
    if k' = k then (k, v) :: rest else (k', v') :: dictSet rest k v

/-- Python `d.get(k)` (`None` when absent is `Option.none`). -/
def dictGet : PyDict → String → Option PyVal
  | [], _ => Option.none
  | (k', v) :: rest, k => if k' = k then some v else dictGet rest k

/-- Python `d.get(k, default)`. -/
def dictGetD (d : PyDict) (k : String) (v : PyVal) : PyVal :=
  (dictGet d k).getD v

/-- Python truthiness of a value (`if not element:` in the handlers).
For floats the literal text is inspected: a float is falsy iff it denotes
zero, i.e. its text has no nonzero digit (exponents never occur in the
inputs the handlers see). -/
def pyTruthy : PyVal → Bool
  | .int n => n != 0
  | .float raw => raw.any (fun c => '1' ≤ c ∧ c ≤ '9')
  | .str s => s ≠ ""
  | .bool b => b
  | .none => false
  | .list xs => !xs.isEmpty
  | .tuple xs => !xs.isEmpty
  | .dict kvs => !kvs.isEmpty

/-- Truthiness of `d.get(k)` (absent key = `None` = falsy). -/
def pyTruthyOpt : Option PyVal → Bool
  | Option.none => false
  | some v => pyTruthy v

/-- Decimal digit character (`'0'` … `'9'`). -/
def digitCharOf (d : Nat) : Char := Char.ofNat (48 + d)

/-- Fueled digit expansion (structural recursion on the fuel, so that the
kernel can evaluate it; `natRepr` supplies sufficient fuel). -/
def natReprAux : Nat → Nat → List Char
  | 0, _ => []
  | fuel + 1, n =>
    if n < 10 then [digitCharOf n]
    else natReprAux fuel (n / 10) ++ [digitCharOf (n % 10)]

/-- Decimal representation of a natural number, most significant digit
first (the standard rendering, as Python's `str(int)` produces). -/
def natRepr (n : Nat) : List Char := natReprAux (n + 1) n

/-- Decimal representation of an integer (`str(x)` for a Python int). -/
def intRepr (x : Int) : List Char :=
  if x < 0 then '-' :: natRepr x.natAbs else natRepr x.natAbs

/-- Decimal string of an integer. -/
def intStr (x : Int) : String := String.mk (intRepr x)

/-- Python `repr` of a string: pick the quote (single quotes unless the
string contains one and no double quote), escape the backslash, the chosen
quote, and the common control characters.  Non-printable escapes beyond
`\n`, `\r`, `\t` are not modelled (they never occur in the claims). -/
def pyStrQuote (s : String) : String :=
  let q : Char := if s.contains squote ∧ ¬ s.contains '"' then '"' else squote
  let body : List Char := s.toList.flatMap (fun c =>
    if c = bslash then [bslash, bslash]
    else if c = q then [bslash, c]
    else if c = '\n' then [bslash, 'n']
    else if c = '\r' then [bslash, 'r']
    else if c = '\t' then [bslash, 't']
    else [c])
  String.mk (q :: body ++ [q])

mutual
/-- Python `repr` of a value (also `str` for every non-string value):
this is what `f"{...}"` interpolation produces for lists, since `str` of a
container calls `repr` on the elements. -/
def pyRepr : PyVal → String
  | .int n => intStr n
  | .float raw => raw
  | .str s => pyStrQuote s
  | .bool b => if b then "True" else "False"
  | .none => "None"
  | .list xs => "[" ++ pyReprJoin xs ++ "]"
  | .tuple [] => "()"
  | .tuple [x] => "(" ++ pyRepr x ++ ",)"
  | .tuple (x :: y :: xs) => "(" ++ pyReprJoin (x :: y :: xs) ++ ")"
  | .dict kvs => "\x7b" ++ pyReprPairs kvs ++ "\x7d"
  termination_by v => sizeOf v

/-- Comma-space join of element `repr`s (Python list/tuple formatting). -/
def pyReprJoin : List PyVal → String
  | [] => ""
  | [x] => pyRepr x
  | x :: y :: xs => pyRepr x ++ ", " ++ pyReprJoin (y :: xs)
  termination_by xs => sizeOf xs

/-- Comma-space join of `k: v` pairs (Python dict formatting). -/
def pyReprPairs : List (PyVal × PyVal) → String
  | [] => ""
  | [(k, v)] => pyRepr k ++ ": " ++ pyRepr v
  | (k, v) :: p :: xs => pyRepr k ++ ": " ++ pyRepr v ++ ", " ++ pyReprPairs (p :: xs)
  termination_by xs => sizeOf xs
end

/-- Python `str` of a value: identity on strings, `repr` otherwise. -/
def pyStr : PyVal → String
  | .str s => s
  | v => pyRepr v

/-- Python `str` applied to a `d.get(k)` result (`str(None) = "None"`). -/
def pyStrOpt : Option PyVal → String
  | Option.none => "None"
  | some v => pyStr v

/-- Python `a or b` on an optional value: `b` when `a` is absent or falsy. -/
def pyOrOpt (a b : Option PyVal) : Option PyVal :=
  match a with
  | some v => if pyTruthy v then some v else b
  | Option.none => b

/-- The helper `do(**kwargs)` of `handler.py` (lines 595–598): the keyword
dict with `_metadata` set to `"do"`. -/
def mkDo (kvs : PyDict) : PyDict := dictSet kvs "_metadata" (.str "do")

/-- The helper `finish(**kwargs)` of `handler.py` (lines 601–604). -/
def mkFinish (kvs : PyDict) : PyDict := dictSet kvs "_metadata" (.str "finish")

/-! ## Action interpreter — `ActionHandler` (`handler.py` lines 25–330)

Device-driver operations are recorded in an event trace; the confirmation
and takeover callbacks are likewise traced, so that "the callback is invoked
before the gesture is issued" is the order of the trace.  The callbacks'
boolean answers and `launch_app`'s success come from a `HandlerEnv`. -/

/-- One device-driver invocation (the `device_factory` calls made by the
handlers, plus the host-side `time.sleep` of the Wait handler). -/
inductive DeviceCall where
  | tap (x y : Int)
  | double_tap (x y : Int)
  | long_press (x y : Int)
  | swipe (x1 y1 x2 y2 : Int)
  | back
  | home
  | launch_app (app : PyVal)
  | set_adb_keyboard
  | clear_text
  | type_text (t : PyVal)
  | restore_keyboard
  | sleep (duration_text : String)

/-- Observable events of one `ActionHandler.execute` call, in order. -/
inductive Event where
  | device (c : DeviceCall)
  | confirm (message : PyVal)
  | takeover (message : PyVal)

/-- Answers of the host-side collaborators: the sensitive-operation
confirmation callback and the app-label resolution of `launch_app`. -/
structure HandlerEnv where
  confirmation_callback : PyVal → Bool
  launch_result : PyVal → Bool

/-- `ActionResult` dataclass (`handler.py` lines 15–22). -/
structure ActionResult where
  success : Bool
  should_finish : Bool
  message : Option PyVal
  requires_confirmation : Bool

/-- Fueled bit length (number of binary digits; 0 for 0). -/
def bitLenAux : Nat → Nat → Nat
  | 0, _ => 0
  | f + 1, n => if n = 0 then 0 else bitLenAux f (n / 2) + 1

/-- Bit length of a natural number. -/
def bitLen (n : Nat) : Nat := bitLenAux (n + 1) n

/-- Round-to-nearest, ties-to-even, of the rational `a / b` to an integer
(`b > 0`) — the IEEE-754 default rounding at integer granularity. -/
def rneDiv (a b : Nat) : Nat :=
  let q := a / b
  let r := a % b
  if b < 2 * r then q + 1
  else if 2 * r < b then q
  else if q % 2 = 0 then q else q + 1

/-- Floor of `a / b` scaled by `2 ^ s` (`s` may be negative). -/
def shiftDiv (a b : Nat) (s : Int) : Nat :=
  if 0 ≤ s then (a * 2 ^ s.toNat) / b else a / (b * 2 ^ (-s).toNat)

/-- RNE rounding of `a / b` scaled by `2 ^ s`. -/
def shiftRneDiv (a b : Nat) (s : Int) : Nat :=
  if 0 ≤ s then rneDiv (a * 2 ^ s.toNat) b else rneDiv a (b * 2 ^ (-s).toNat)

/-- Correctly rounded binary64 of the positive rational `a / b` as a
mantissa–exponent pair `(m, e)` with value `m * 2 ^ e` and
`2 ^ 52 ≤ m < 2 ^ 53`.  This is CPython's `int.__truediv__` result for
`a / b` in the normal range; the inputs the conversion receives
(`1 ≤ a`, `b = 1000`, dimensions below `2 ^ 31`) stay far from overflow
and subnormals, where this normalized form is exact IEEE semantics. -/
def flDivPos (a b : Nat) : Nat × Int :=
  let s0 : Int := 52 - ((bitLen a : Int) - (bitLen b : Int))
  let s : Int := if shiftDiv a b s0 < 2 ^ 52 then s0 + 1 else s0
  let m0 := shiftRneDiv a b s
  if m0 = 2 ^ 53 then (2 ^ 52, -s + 1) else (m0, -s)

/-- Correctly rounded binary64 product of the double `m * 2 ^ e` and the
integer `dim`: the exact integer product, RNE-rounded to 53 significant
bits (IEEE multiplication; the int-to-double conversion of `dim` is exact
below `2 ^ 53`). -/
def flMulPos (m : Nat) (e : Int) (dim : Nat) : Nat × Int :=
  let p := m * dim
  let n := bitLen p
  if n ≤ 53 then (p, e)
  else
    let sh := n - 53
    let m0 := rneDiv p (2 ^ sh)
    if m0 = 2 ^ 53 then (2 ^ 52, e + sh + 1) else (m0, e + sh)

/-- Truncation toward zero of the nonnegative double `m * 2 ^ e`
(Python `int()` on a nonnegative float). -/
def flTruncPos (m : Nat) (e : Int) : Nat :=
  if 0 ≤ e then m * 2 ^ e.toNat else m / 2 ^ (-e).toNat

/-- Scaling of one relative coordinate (`handler.py` line 115/116):
`int(rel / 1000 * dim)` evaluated in IEEE binary64 exactly as CPython
does — correctly rounded true division `rel / 1000`, correctly rounded
multiplication by `dim`, then truncation toward zero.  Signs are split
off first (binary64 rounding and `int()` truncation are both symmetric
about zero). -/
def scaleCoord (rel dim : Int) : Int :=
  if rel = 0 ∨ dim = 0 then 0
  else
    let p1 := flDivPos rel.natAbs 1000
    let p2 := flMulPos p1.1 p1.2 dim.natAbs
    let t : Int := flTruncPos p2.1 p2.2
    if (rel < 0) = (dim < 0) then t else -t

/-- `_convert_relative_to_absolute` (`handler.py` lines 111–117): both
coordinates of `element` scaled; a non-list or non-integer element raises
(`TypeError`/`IndexError`), which `execute` catches. -/
def convert_relative_to_absolute (element : Option PyVal) (w h : Int) :
    Except String (Int × Int) :=
  match element with
  | some (PyVal.list (PyVal.int a :: PyVal.int b :: _)) =>
    .ok (scaleCoord a w, scaleCoord b h)
  | _ => .error "element is not an indexable pair of numbers"

/-- Result of one handler body: the events it emitted (they stay emitted
even when the body then raises) and either a result or an exception text. -/
def HandlerFn : Type :=
  HandlerEnv → PyDict → Int → Int → Except String ActionResult × List Event

/-- `_handle_launch` (`handler.py` lines 119–129). -/
def handle_launch : HandlerFn := fun env action _ _ =>
  let app := dictGet action "app"
  if pyTruthyOpt app = false then
    (.ok ⟨false, false, some (.str "No app name specified"), false⟩, [])
  else
    match app with
    | some a =>
      if env.launch_result a then
        (.ok ⟨true, false, Option.none, false⟩, [Event.device (.launch_app a)])
      else
        (.ok ⟨false, false, some (.str ("App not found: " ++ pyStr a)), false⟩,
         [Event.device (.launch_app a)])
    | Option.none => (.error "unreachable: app is truthy", [])

/-- `_handle_tap` (`handler.py` lines 131–150): coordinate conversion, then
the sensitive-operation guard — if a `message` key is present the
confirmation callback runs before the gesture, and a `false` answer yields
`success=False, should_finish=True, "User cancelled sensitive operation"`
with no gesture issued. -/
def handle_tap : HandlerFn := fun env action w h =>
  let element := dictGet action "element"
  if pyTruthyOpt element = false then
    (.ok ⟨false, false, some (.str "No element coordinates"), false⟩, [])
  else
    match convert_relative_to_absolute element w h with
    | .error e => (.error e, [])
    | .ok (x, y) =>
      match dictGet action "message" with
      | some m =>
        if env.confirmation_callback m then
          (.ok ⟨true, false, Option.none, false⟩,
           [Event.confirm m, Event.device (.tap x y)])
        else
          (.ok ⟨false, true, some (.str "User cancelled sensitive operation"), false⟩,
           [Event.confirm m])
      | Option.none =>
        (.ok ⟨true, false, Option.none, false⟩, [Event.device (.tap x y)])

/-- `_handle_type` (`handler.py` lines 152–174): IME swap, clear, type,
restore (the fixed `TIMING_CONFIG` sleeps between them are timing-only and
not traced). -/
def handle_type : HandlerFn := fun _ action _ _ =>
  let text := dictGetD action "text" (.str "")
  (.ok ⟨true, false, Option.none, false⟩,
   [Event.device .set_adb_keyboard, Event.device .clear_text,
    Event.device (.type_text text), Event.device .restore_keyboard])

/-- `_handle_swipe` (`handler.py` lines 176–189). -/
def handle_swipe : HandlerFn := fun _ action w h =>
  let start := dictGet action "start"
  let stop := dictGet action "end"
  if pyTruthyOpt start = false ∨ pyTruthyOpt stop = false then
    (.ok ⟨false, false, some (.str "Missing swipe coordinates"), false⟩, [])
  else
    match convert_relative_to_absolute start w h with
    | .error e => (.error e, [])
    | .ok (x1, y1) =>
      match convert_relative_to_absolute stop w h with
      | .error e => (.error e, [])
      | .ok (x2, y2) =>
        (.ok ⟨true, false, Option.none, false⟩, [Event.device (.swipe x1 y1 x2 y2)])

/-- `_handle_back` (`handler.py` lines 191–195). -/
def handle_back : HandlerFn := fun _ _ _ _ =>
  (.ok ⟨true, false, Option.none, false⟩, [Event.device .back])

/-- `_handle_home` (`handler.py` lines 197–201). -/
def handle_home : HandlerFn := fun _ _ _ _ =>
  (.ok ⟨true, false, Option.none, false⟩, [Event.device .home])

/-- `_handle_double_tap` (`handler.py` lines 203–212): converts and issues
the double tap.  Note: unlike `_handle_tap`, there is no `message`
confirmation guard in the source. -/
def handle_double_tap : HandlerFn := fun _ action w h =>
  let element := dictGet action "element"
  if pyTruthyOpt element = false then
    (.ok ⟨false, false, some (.str "No element coordinates"), false⟩, [])
  else
    match convert_relative_to_absolute element w h with
    | .error e => (.error e, [])
    | .ok (x, y) =>
      (.ok ⟨true, false, Option.none, false⟩, [Event.device (.double_tap x y)])

/-- `_handle_long_press` (`handler.py` lines 214–223): converts and issues
the long press; like `_handle_double_tap` it has no confirmation guard. -/
def handle_long_press : HandlerFn := fun _ action w h =>
  let element := dictGet action "element"
  if pyTruthyOpt element = false then
    (.ok ⟨false, false, some (.str "No element coordinates"), false⟩, [])
  else
    match convert_relative_to_absolute element w h with
    | .error e => (.error e, [])
    | .ok (x, y) =>
      (.ok ⟨true, false, Option.none, false⟩, [Event.device (.long_press x y)])

/-- Fueled core of `replaceSub` (structural on the fuel so the kernel can
evaluate it; the wrapper supplies sufficient fuel, as every step consumes
at least one character). -/
def replaceSubAux : Nat → List Char → List Char → List Char → List Char
  | 0, l, _, _ => l
  | fuel + 1, l, old, new =>
    match l with
    | [] => []
    | c :: rest =>
      if old ≠ [] ∧ old.isPrefixOf (c :: rest) then
        new ++ replaceSubAux fuel ((c :: rest).drop old.length) old new
      else
        c :: replaceSubAux fuel rest old new

/-- Python `s.replace(old, new)` on character lists, scanning left to right
without overlap (used for Wait's `duration_str.replace("seconds", "")` and
throughout the parser). -/
def replaceSub (l old new : List Char) : List Char :=
  replaceSubAux (l.length + 1) l old new

/-- Python `str.strip()` on character lists. -/
def trimChars (l : List Char) : List Char :=
  ((l.dropWhile Char.isWhitespace).reverse.dropWhile Char.isWhitespace).reverse

/-- `_handle_wait` (`handler.py` lines 225–234): the duration text has
`"seconds"` removed and is stripped; the parsed float (or the 1.0 fallback)
only feeds the host-side `time.sleep`, so the cleaned text is recorded on
the sleep event.  A non-string duration raises `AttributeError`. -/
def handle_wait : HandlerFn := fun _ action _ _ =>
  match dictGetD action "duration" (.str "1 seconds") with
  | .str s =>
    let cleaned := String.mk (trimChars (replaceSub s.toList "seconds".toList []))
    (.ok ⟨true, false, Option.none, false⟩, [Event.device (.sleep cleaned)])
  | _ => (.error "duration is not a string", [])

/-- `_handle_takeover` (`handler.py` lines 236–240): invokes the takeover
callback and reports success without finishing. -/
def handle_takeover : HandlerFn := fun _ action _ _ =>
  let m := dictGetD action "message" (.str "User intervention required")
  (.ok ⟨true, false, Option.none, false⟩, [Event.takeover m])

/-- `_handle_note` (`handler.py` lines 242–246): no-op placeholder. -/
def handle_note : HandlerFn := fun _ _ _ _ =>
  (.ok ⟨true, false, Option.none, false⟩, [])

/-- `_handle_call_api` (`handler.py` lines 248–252): no-op placeholder. -/
def handle_call_api : HandlerFn := fun _ _ _ _ =>
  (.ok ⟨true, false, Option.none, false⟩, [])

/-- `_handle_interact` (`handler.py` lines 254–257). -/
def handle_interact : HandlerFn := fun _ _ _ _ =>
  (.ok ⟨true, false, some (.str "User interaction required"), false⟩, [])

/-- The dispatch table of `_get_handler` (`handler.py` lines 91–109). -/
def handler_table : List (String × HandlerFn) :=
  [("Launch", handle_launch),
   ("Tap", handle_tap),
   ("Type", handle_type),
   ("Type_Name", handle_type),
   ("Swipe", handle_swipe),
   ("Back", handle_back),
   ("Home", handle_home),
   ("Double Tap", handle_double_tap),
   ("Long Press", handle_long_press),
   ("Wait", handle_wait),
   ("Take_over", handle_takeover),
   ("Note", handle_note),
   ("Call_API", handle_call_api),
   ("Interact", handle_interact)]

/-- `handlers.get(action_name)`. -/
def handlerLookup (name : String) : Option HandlerFn :=
  (handler_table.find? (fun kv => kv.1 = name)).map (fun kv => kv.2)

/-- The enumerated action names, exactly the keys of the dispatch table. -/
def actionNames : List String := handler_table.map (fun kv => kv.1)

/-- `ActionHandler.execute` (`handler.py` lines 46–89): the `finish` /
non-`do` metadata gates, handler dispatch, and the catch-all that turns a
handler exception into `success=False, "Action failed: …"`. -/
def ActionHandler.execute (env : HandlerEnv) (action : PyDict)
    (screen_width screen_height : Int) : ActionResult × List Event :=
  match dictGet action "_metadata" with
  | some (PyVal.str "finish") =>
    (⟨true, true, dictGet action "message", false⟩, [])
  | some (PyVal.str "do") =>
    let dispatch :=
      match dictGet action "action" with
      | some (PyVal.str name) =>
        match handlerLookup name with
        | some h => some (h env action screen_width screen_height)
        | Option.none => Option.none
      | _ => Option.none
    match dispatch with
    | some (res, evs) =>
      match res with
      | .ok r => (r, evs)
      | .error e => (⟨false, false, some (.str ("Action failed: " ++ e)), false⟩, evs)
    | Option.none =>
      (⟨false, false,
        some (.str ("Unknown action: " ++ pyStrOpt (dictGet action "action"))), false⟩, [])
  | md =>
    (⟨false, true, some (.str ("Unknown action type: " ++ pyStrOpt md)), false⟩, [])

/-! ## Claims C1 and C2 — sensitive-operation guard and coordinate scaling -/

/-- Modelled from the spec: the scaling the spec asserts, `round(rel / 1000 *
dim)` with Python's `round` (banker's rounding, half to even) evaluated on
the exact rational `rel * dim / 1000`.  This definition follows the spec's
words and exists only to be compared with `scaleCoord`, which is the
translation of the source. -/
def specRound (rel dim : Int) : Int :=
  let num := rel * dim
  let q := num / 1000
  let r := num % 1000
  if 1000 < 2 * r then q + 1
  else if 2 * r < 1000 then q
  else if q % 2 = 0 then q else q + 1

/-- A confirmation callback that always refuses, with app resolution
always succeeding. -/
def envRefuse : HandlerEnv := ⟨fun _ => false, fun _ => true⟩

/-- C1 (counterexample): the claim says a `Double Tap` carrying a `message`
invokes the confirmation callback and, on refusal, returns `success=False,
should_finish=True, "User cancelled sensitive operation"` with no gesture.
On the source, `_handle_double_tap` has no confirmation guard: with a
refusing callback the double tap at `element=[300,600]` on a 1000×2000
screen is issued anyway and the call returns plain success — the callback
is never consulted (no `Event.confirm` in the trace). -/
theorem C1_counterexample :
    ActionHandler.execute envRefuse
      [("_metadata", PyVal.str "do"), ("action", PyVal.str "Double Tap"),
       ("element", PyVal.list [PyVal.int 300, PyVal.int 600]),
       ("message", PyVal.str "confirm payment")] 1000 2000 =
    (⟨true, false, Option.none, false⟩,
     [Event.device (DeviceCall.double_tap 300 1200)]) := by
  rfl

/-- C1 (amended): only the `Tap` handler enforces the sensitive-operation
guard.  For a `Tap` whose record carries `message`, the confirmation
callback is invoked before the gesture (it is the first trace event), a
`false` answer yields `success=False, should_finish=True, message="User
cancelled sensitive operation"` with no device gesture, and a `true` answer
issues the tap.  `Double Tap` and `Long Press` with a `message` field issue
their gesture without consulting the callback. -/
theorem C1_amended (env : HandlerEnv) (x y w h : Int) (m : PyVal) :
    (ActionHandler.execute env
      [("_metadata", PyVal.str "do"), ("action", PyVal.str "Tap"),
       ("element", PyVal.list [PyVal.int x, PyVal.int y]), ("message", m)] w h =
      if env.confirmation_callback m then
        (⟨true, false, Option.none, false⟩,
         [Event.confirm m, Event.device (.tap (scaleCoord x w) (scaleCoord y h))])
      else
        (⟨false, true, some (.str "User cancelled sensitive operation"), false⟩,
         [Event.confirm m]))
    ∧ ActionHandler.execute env
      [("_metadata", PyVal.str "do"), ("action", PyVal.str "Double Tap"),
       ("element", PyVal.list [PyVal.int x, PyVal.int y]), ("message", m)] w h =
      (⟨true, false, Option.none, false⟩,
       [Event.device (.double_tap (scaleCoord x w) (scaleCoord y h))])
    ∧ ActionHandler.execute env
      [("_metadata", PyVal.str "do"), ("action", PyVal.str "Long Press"),
       ("element", PyVal.list [PyVal.int x, PyVal.int y]), ("message", m)] w h =
      (⟨true, false, Option.none, false⟩,
       [Event.device (.long_press (scaleCoord x w) (scaleCoord y h))]) := by
  refine ⟨?_, rfl, rfl⟩
  cases hc : env.confirmation_callback m <;>
    simp [ActionHandler.execute, handlerLookup, handler_table, handle_tap,
      convert_relative_to_absolute, dictGet, pyTruthyOpt, pyTruthy, hc]

/-- C2 (counterexample): the claim says the conversion is
`pixel = round(rel / 1000 * dim)`.  The source (`int(element[0] / 1000 *
screen_width)`) truncates: at `rel = 500, dim = 3` the exact value is 1.5
(double-precision evaluation is exact here), the source yields 1, while the
spec's `round` yields 2. -/
theorem C2_counterexample :
    convert_relative_to_absolute
      (some (PyVal.list [PyVal.int 500, PyVal.int 500])) 3 3 = .ok (1, 1)
    ∧ specRound 500 3 = 2 ∧ scaleCoord 500 3 ≠ specRound 500 3 :=
  ⟨rfl, by decide, by decide⟩

/-- C2 (amended): the conversion applied to every relative coordinate is
`pixel = int(rel / 1000 * dim)` evaluated in IEEE binary64 — truncation
toward zero of the double product, with the divisor exactly 1000 — and
this same conversion is the one used by Tap, Double Tap, Long Press, and
both Swipe endpoints.  The binary64 evaluation differs from the exact
rational truncation at in-range inputs: at `rel = 175, dim = 720` the
source (and `scaleCoord`) computes 125 where exact truncated division
gives 126. -/
theorem C2_amended (env : HandlerEnv) (x y x2 y2 w h : Int) :
    (scaleCoord 175 720 = 125 ∧ Int.tdiv (175 * 720) 1000 = 126)
    ∧ ActionHandler.execute env
      [("_metadata", PyVal.str "do"), ("action", PyVal.str "Tap"),
       ("element", PyVal.list [PyVal.int x, PyVal.int y])] w h =
      (⟨true, false, Option.none, false⟩,
       [Event.device (.tap (scaleCoord x w) (scaleCoord y h))])
    ∧ ActionHandler.execute env
      [("_metadata", PyVal.str "do"), ("action", PyVal.str "Double Tap"),
       ("element", PyVal.list [PyVal.int x, PyVal.int y])] w h =
      (⟨true, false, Option.none, false⟩,
       [Event.device (.double_tap (scaleCoord x w) (scaleCoord y h))])
    ∧ ActionHandler.execute env
      [("_metadata", PyVal.str "do"), ("action", PyVal.str "Long Press"),
       ("element", PyVal.list [PyVal.int x, PyVal.int y])] w h =
      (⟨true, false, Option.none, false⟩,
       [Event.device (.long_press (scaleCoord x w) (scaleCoord y h))])
    ∧ ActionHandler.execute env
      [("_metadata", PyVal.str "do"), ("action", PyVal.str "Swipe"),
       ("start", PyVal.list [PyVal.int x, PyVal.int y]),
       ("end", PyVal.list [PyVal.int x2, PyVal.int y2])] w h =
      (⟨true, false, Option.none, false⟩,
       [Event.device (.swipe (scaleCoord x w) (scaleCoord y h)
          (scaleCoord x2 w) (scaleCoord y2 h))]) :=
  ⟨⟨by decide, by decide⟩, rfl, rfl, rfl, rfl⟩

/-! ## Action parser — `parse_action` (`handler.py` lines 333–592)

The parser pipeline operates on character lists: strip wrappers, try the
bare-JSON branch, extract the first balanced `do(`/`finish(` call, normalize
typos, parse strictly (Python-literal keyword call), and fall back to the
permissive splitter. -/

/-- First index at which `pat` occurs in `l` (Python `str.find`). -/
def findSub (l pat : List Char) : Option Nat :=
  if pat.isPrefixOf l then some 0
  else
    match l with
    | [] => Option.none
    | _ :: rest => (findSub rest pat).map (fun i => i + 1)

/-- Index of the last occurrence of `c` in `l` (Python `str.rfind`),
`Option.none` when absent. -/
def findLastIdx (l : List Char) (c : Char) : Option Nat :=
  (l.reverse.findIdx? (fun d => d = c)).map (fun i => l.length - 1 - i)

/-- Characters before the first ` ``` ` fence in `l`, when one occurs. -/
def takeUntilFence : List Char → Option (List Char)
  | [] => Option.none
  | c :: rest =>
    if "```".toList.isPrefixOf (c :: rest) then some []
    else (takeUntilFence rest).map (fun s => c :: s)

/-- Leftmost match of the fence regex `` ```(?:python)?\s*(.*?)\s*``` ``
(DOTALL): at the first ` ``` ` that has a closing fence, the enclosed text
(the greedy/lazy whitespace groups amount to trimming, and the caller trims
again). -/
def findFence : List Char → Option (List Char)
  | [] => Option.none
  | c :: rest =>
    if "```".toList.isPrefixOf (c :: rest) then
      let afterOpen := (c :: rest).drop 3
      let afterLang :=
        if "python".toList.isPrefixOf afterOpen then afterOpen.drop 6 else afterOpen
      match takeUntilFence afterLang with
      | some inner => some inner
      | Option.none => findFence rest
    else findFence rest

/-- The XML-ish tags `_strip_wrappers` removes (`handler.py` lines 470–477). -/
def xmlTags : List (List Char) :=
  ["<think>".toList, "</think>".toList, "<answer>".toList,
   "</answer>".toList, "<tool_call>".toList, "</tool_call>".toList]

/-- `_strip_wrappers` (`handler.py` lines 466–484): trim, replace each tag
by a space, unwrap a fenced code block, trim. -/
def stripWrappers (l : List Char) : List Char :=
  let t := trimChars l
  let t := xmlTags.foldl (fun s tag => replaceSub s tag [' ']) t
  let t :=
    match findFence t with
    | some inner => trimChars inner
    | Option.none => t
  trimChars t

/-- JSON whitespace. -/
def jsonWs (l : List Char) : List Char :=
  l.dropWhile (fun c => c = ' ' ∨ c = '\t' ∨ c = '\n' ∨ c = '\r')

/-- Hex digit value. -/
def hexVal (c : Char) : Option Nat :=
  if '0' ≤ c ∧ c ≤ '9' then some (c.toNat - 48)
  else if 'a' ≤ c ∧ c ≤ 'f' then some (c.toNat - 87)
  else if 'A' ≤ c ∧ c ≤ 'F' then some (c.toNat - 55)
  else Option.none

/-- Body of a JSON string after the opening quote: content and remainder
(fueled; callers supply the input length as fuel, which suffices since
every step consumes at least one character).  Surrogate pairs in `\uXXXX`
escapes are not recombined (never hit by the claims; `json.loads` would
combine them). -/
def parseJsonStrBody : Nat → List Char → Option (List Char × List Char)
  | 0, _ => Option.none
  | _, [] => Option.none
  | fuel + 1, c :: rest =>
    if c = '"' then some ([], rest)
    else if c = bslash then
      match rest with
      | [] => Option.none
      | e :: rest2 =>
        if e = 'u' then
          match rest2 with
          | h1 :: h2 :: h3 :: h4 :: rest3 =>
            match hexVal h1, hexVal h2, hexVal h3, hexVal h4 with
            | some a, some b, some c4, some d =>
              (parseJsonStrBody fuel rest3).map
                (fun p => (Char.ofNat (((a * 16 + b) * 16 + c4) * 16 + d) :: p.1, p.2))
            | _, _, _, _ => Option.none
          | _ => Option.none
        else
          let mapped : Option Char :=
            if e = '"' then some '"' else if e = bslash then some bslash
            else if e = '/' then some '/' else if e = 'b' then some (Char.ofNat 8)
            else if e = 'f' then some (Char.ofNat 12) else if e = 'n' then some '\n'
            else if e = 'r' then some '\r' else if e = 't' then some '\t'
            else Option.none
          match mapped with
          | some ch => (parseJsonStrBody fuel rest2).map (fun p => (ch :: p.1, p.2))
          | Option.none => Option.none
    else (parseJsonStrBody fuel rest).map (fun p => (c :: p.1, p.2))

/-- Natural number denoted by a digit list. -/
def natOfDigits (ds : List Char) : Nat :=
  ds.foldl (fun a c => a * 10 + (c.toNat - 48)) 0

/-- A JSON number: Python `int` when it is a plain integer, `float` (raw
text) when it has a fraction or exponent. -/
def jsonNum (l : List Char) : Option (PyVal × List Char) :=
  let (sign, l1) : List Char × List Char :=
    match l with
    | '-' :: r => (['-'], r)
    | _ => ([], l)
  let ds := l1.takeWhile Char.isDigit
  if ds.isEmpty then Option.none
  else if 1 < ds.length ∧ ds.head? = some '0' then Option.none
  else
    let r := l1.drop ds.length
    let intVal : Int :=
      if sign.isEmpty then (natOfDigits ds : Int) else -(natOfDigits ds : Int)
    match r with
    | '.' :: r2 =>
      let fr := r2.takeWhile Char.isDigit
      if fr.isEmpty then Option.none
      else
        let r3 := r2.drop fr.length
        match r3 with
        | e :: r4 =>
          if e = 'e' ∨ e = 'E' then
            let (es, r5) : List Char × List Char :=
              match r4 with
              | s :: r5 => if s = '+' ∨ s = '-' then ([s], r5) else ([], r4)
              | [] => ([], r4)
            let eds := r5.takeWhile Char.isDigit
            if eds.isEmpty then Option.none
            else some (.float (String.mk (sign ++ ds ++ '.' :: fr ++ e :: es ++ eds)),
                       r5.drop eds.length)
          else some (.float (String.mk (sign ++ ds ++ '.' :: fr)), r3)
        | [] => some (.float (String.mk (sign ++ ds ++ '.' :: fr)), r3)
    | e :: r2 =>
      if e = 'e' ∨ e = 'E' then
        let (es, r3) : List Char × List Char :=
          match r2 with
          | s :: r3 => if s = '+' ∨ s = '-' then ([s], r3) else ([], r2)
          | [] => ([], r2)
        let eds := r3.takeWhile Char.isDigit
        if eds.isEmpty then Option.none
        else some (.float (String.mk (sign ++ ds ++ e :: es ++ eds)), r3.drop eds.length)
      else some (.int intVal, r)
    | [] => some (.int intVal, r)

/-- Key test for JSON-object keys (always strings). -/
def keyIs (p : PyVal) (k : String) : Bool :=
  match p with
  | .str s => s = k
  | _ => false

/-- Duplicate-key handling of `json.loads`: last value wins, first position
kept. -/
def jsonObjSet (kvs : List (PyVal × PyVal)) (k : String) (v : PyVal) :
    List (PyVal × PyVal) :=
  if kvs.any (fun kv => keyIs kv.1 k) then
    kvs.map (fun kv => if keyIs kv.1 k then (PyVal.str k, v) else kv)
  else kvs ++ [(PyVal.str k, v)]

/-- Command argument for the flattened JSON recursive-descent parser
(`jsonP`); flattening the mutual recursion into one structurally recursive
function keeps it kernel-evaluable. -/
inductive JCmd where
  | val (l : List Char)
  | members (l : List Char) (acc : List (PyVal × PyVal))
  | elems (l : List Char) (acc : List PyVal)

/-- Fueled JSON recursive descent: one value, object members, array
elements. -/
def jsonP : Nat → JCmd → Option (PyVal × List Char)
  | 0, _ => Option.none
  | fuel + 1, .val l =>
    match jsonWs l with
    | [] => Option.none
    | c :: rest =>
      if c = '"' then
        (parseJsonStrBody (rest.length + 1) rest).map
          (fun p => (PyVal.str (String.mk p.1), p.2))
      else if c = '{' then jsonP fuel (.members rest [])
      else if c = '[' then jsonP fuel (.elems rest [])
      else if c = 't' then
        if "rue".toList.isPrefixOf rest then some (.bool true, rest.drop 3) else Option.none
      else if c = 'f' then
        if "alse".toList.isPrefixOf rest then some (.bool false, rest.drop 4) else Option.none
      else if c = 'n' then
        if "ull".toList.isPrefixOf rest then some (.none, rest.drop 3) else Option.none
      else if c = '-' ∨ c.isDigit then jsonNum (c :: rest)
      else Option.none
  | fuel + 1, .members l acc =>
    match jsonWs l with
    | [] => Option.none
    | c :: rest =>
      if c = '}' ∧ acc.isEmpty then some (.dict [], rest)
      else if c = '"' then
        match parseJsonStrBody (rest.length + 1) rest with
        | Option.none => Option.none
        | some (k, r1) =>
          match jsonWs r1 with
          | ':' :: r2 =>
            match jsonP fuel (.val r2) with
            | Option.none => Option.none
            | some (v, r3) =>
              let acc2 := jsonObjSet acc (String.mk k) v
              match jsonWs r3 with
              | ',' :: r4 => jsonP fuel (.members r4 acc2)
              | '}' :: r4 => some (.dict acc2, r4)
              | _ => Option.none
          | _ => Option.none
      else Option.none
  | fuel + 1, .elems l acc =>
    match jsonWs l with
    | [] => Option.none
    | c :: rest =>
      if c = ']' ∧ acc.isEmpty then some (.list [], rest)
      else
        match jsonP fuel (.val (c :: rest)) with
        | Option.none => Option.none
        | some (v, r1) =>
          match jsonWs r1 with
          | ',' :: r2 => jsonP fuel (.elems r2 (acc ++ [v]))
          | ']' :: r2 => some (.list (acc ++ [v]), r2)
          | _ => Option.none

/-- One JSON value. -/
def jsonVal (fuel : Nat) (l : List Char) : Option (PyVal × List Char) :=
  jsonP fuel (.val l)

/-- `json.loads`, rejecting trailing garbage. -/
def jsonLoads (l : List Char) : Option PyVal :=
  match jsonVal (2 * l.length + 2) l with
  | some (v, rest) => if (jsonWs rest).isEmpty then some v else Option.none
  | Option.none => Option.none

/-- JSON-object pairs with their (always string) keys extracted. -/
def toStrDict : List (PyVal × PyVal) → Option PyDict
  | [] => some []
  | (PyVal.str k, v) :: rest => (toStrDict rest).map (fun d => (k, v) :: d)
  | _ => Option.none

/-- The bare-JSON branch of `parse_action` (`handler.py` lines 549–559):
when the stripped response is `{…}` and loads as a dict, return it,
synthesizing `_metadata` (`finish` when `message` is present without
`action`, else `do`) if absent. -/
def jsonBranch (l : List Char) : Option PyDict :=
  if l.head? = some '{' ∧ l.getLast? = some '}' then
    match jsonLoads l with
    | some (PyVal.dict kvs) =>
      match toStrDict kvs with
      | some payload =>
        if (dictGet payload "_metadata").isSome then some payload
        else
          some (dictSet payload "_metadata"
            (.str (if (dictGet payload "message").isSome ∧
                      (dictGet payload "action").isSome = false
                   then "finish" else "do")))
      | Option.none => Option.none
    | _ => Option.none
  else Option.none

/-- One step of the `_extract_first_call` scan (`handler.py` lines
486–522): quote/escape-aware balanced-parenthesis extraction starting at a
`do(`/`finish(` occurrence; returns the accumulated text when depth
returns to zero. -/
def extractScan : List Char → Option Char → Bool → Int → List Char →
    Option (List Char)
  | [], _, _, _, _ => Option.none
  | c :: rest, inQ, esc, depth, acc =>
    match inQ with
    | some q =>
      if esc then extractScan rest inQ false depth (acc ++ [c])
      else if c = bslash then extractScan rest inQ true depth (acc ++ [c])
      else if c = q then extractScan rest Option.none false depth (acc ++ [c])
      else extractScan rest inQ false depth (acc ++ [c])
    | Option.none =>
      if c = squote ∨ c = '"' then extractScan rest (some c) false depth (acc ++ [c])
      else if c = '(' then extractScan rest Option.none false (depth + 1) (acc ++ [c])
      else if c = ')' then
        if depth - 1 = 0 then some (acc ++ [c])
        else extractScan rest Option.none false (depth - 1) (acc ++ [c])
      else extractScan rest Option.none false depth (acc ++ [c])

/-- `_extract_first_call` (`handler.py` lines 486–522). -/
def extractFirstCall (l : List Char) : List Char :=
  let iDo := findSub l "do(".toList
  let iFin := findSub l "finish(".toList
  let start : Option Nat :=
    match iDo, iFin with
    | some a, some b => some (min a b)
    | some a, Option.none => some a
    | Option.none, some b => some b
    | Option.none, Option.none => Option.none
  match start with
  | Option.none => l
  | some s =>
    match extractScan (l.drop s) Option.none false 0 [] with
    | some taken => trimChars taken
    | Option.none => trimChars (l.drop s)

/-- Full-width/smart-quote normalization of `_normalize_common_typos`
(`handler.py` lines 526–533): all six replacements are single-character,
hence a character map. -/
def smartMap (c : Char) : Char :=
  if c = '“' ∨ c = '”' then '"'
  else if c = '‘' ∨ c = '’' then squote
  else if c = '，' then ','
  else if c = '：' then ':'
  else c

/-- The keys of the three key-rewriting regexes (`handler.py` line 537), in
alternation order. -/
def normKeys : List (List Char) :=
  ["element".toList, "start".toList, "end".toList, "app".toList,
   "text".toList, "message".toList, "duration".toList]

/-- Regex word character (`\w`; ASCII suffices for every input these
regexes can match, since the keys are ASCII). -/
def isWordChar (c : Char) : Bool := c.isAlphanum ∨ c = '_'

/-- Optionally consume a double quote. -/
def dropQuote (b : Bool) (l : List Char) : Option (List Char) :=
  if b then
    match l with
    | '"' :: r => some r
    | _ => Option.none
  else some l

/-- Try to match one key of a key-rewriting regex at the head of `l`:
optional quote, the key, optional quote, `\s*`, `:`, `\s*`.  Returns the
remainder after the whole match. -/
def passTryKey (qb qa : Bool) (k l : List Char) : Option (List Char) :=
  (dropQuote qb l).bind (fun l1 =>
    if k.isPrefixOf l1 then
      (dropQuote qa (l1.drop k.length)).bind (fun l2 =>
        match l2.dropWhile Char.isWhitespace with
        | ':' :: r => some (r.dropWhile Char.isWhitespace)
        | _ => Option.none)
    else Option.none)

/-- First key (in alternation order) whose full pattern matches here. -/
def passTryKeys (qb qa : Bool) : List (List Char) → List Char →
    Option (List Char × List Char)
  | [], _ => Option.none
  | k :: ks, l =>
    match passTryKey qb qa k l with
    | some r => some (k, r)
    | Option.none => passTryKeys qb qa ks l

/-- Fueled core of one key-rewriting regex pass (structural on the fuel;
the wrapper supplies the input length, sufficient since a match consumes at
least the key and the colon). -/
def passRunAux (qb qa bound : Bool) : Nat → List Char → Bool → List Char
  | 0, l, _ => l
  | fuel + 1, l, prevW =>
    match l with
    | [] => []
    | c :: rest =>
      let allowed : Bool := if bound then !prevW else true
      match (if allowed then passTryKeys qb qa normKeys (c :: rest) else Option.none) with
      | some kr => kr.1 ++ '=' :: passRunAux qb qa bound fuel kr.2 false
      | Option.none => c :: passRunAux qb qa bound fuel rest (isWordChar c)

/-- One global, non-overlapping, left-to-right pass of a key-rewriting
regex (`re.sub`): `prevW` records whether the previous character is a word
character (for the `\b` of passes 2 and 3; after a replacement the last
consumed character is `:` or whitespace, both non-word). -/
def passRun (qb qa bound : Bool) (l : List Char) (prevW : Bool) : List Char :=
  passRunAux qb qa bound (l.length + 1) l prevW

/-- `_normalize_common_typos` (`handler.py` lines 524–544): trim, map the
full-width characters, run the three key-rewriting regex passes, strip
trailing semicolons. -/
def normalizeCommonTypos (l : List Char) : List Char :=
  let t := trimChars l
  let t := t.map smartMap
  let t := passRun true true false t false
  let t := passRun false true true t false
  let t := passRun false false true t false
  ((t.reverse.dropWhile (fun c => c = ';')).reverse)

/-- Newline/carriage-return/tab escaping applied before `ast.parse` /
`ast.literal_eval` (`handler.py` lines 455–459 and 568). -/
def escapeControl (l : List Char) : List Char :=
  replaceSub (replaceSub (replaceSub l ['\n'] [bslash, 'n'])
    ['\r'] [bslash, 'r']) ['\t'] [bslash, 't']

/-- Python identifier character (ASCII). -/
def isIdentChar (c : Char) : Bool := c.isAlphanum ∨ c = '_'

/-- Body of a Python string literal after the opening quote `q`: resolved
content and remainder.  The common escapes are resolved; an unknown escape
keeps the backslash and the character (as Python does); an unescaped
newline is a syntax error. -/
def parsePyStrBody (q : Char) : Nat → List Char → Option (List Char × List Char)
  | 0, _ => Option.none
  | _, [] => Option.none
  | fuel + 1, c :: rest =>
    if c = q then some ([], rest)
    else if c = bslash then
      match rest with
      | [] => Option.none
      | e :: rest2 =>
        let mapped : List Char :=
          if e = 'n' then ['\n'] else if e = 't' then ['\t']
          else if e = 'r' then ['\r'] else if e = bslash then [bslash]
          else if e = squote then [squote] else if e = '"' then ['"']
          else if e = '0' then [Char.ofNat 0] else [bslash, e]
        (parsePyStrBody q fuel rest2).map (fun p => (mapped ++ p.1, p.2))
    else if c = '\n' then Option.none
    else (parsePyStrBody q fuel rest).map (fun p => (c :: p.1, p.2))

/-- A Python numeric literal (no sign): `int` for plain digit runs (with
Python's no-leading-zero rule), `float` (raw text) when a fraction or
exponent follows.  Malformed numbers fail, sending the call to the
permissive fallback exactly as a `SyntaxError` does. -/
def parseNumber (l : List Char) : Option (PyVal × List Char) :=
  let ds := l.takeWhile Char.isDigit
  if ds.isEmpty then Option.none
  else
    let rest := l.drop ds.length
    match rest with
    | '.' :: r2 =>
      let fr := r2.takeWhile Char.isDigit
      let r3 := r2.drop fr.length
      match r3 with
      | e :: r4 =>
        if e = 'e' ∨ e = 'E' then
          let (es, r5) : List Char × List Char :=
            match r4 with
            | s :: r5 => if s = '+' ∨ s = '-' then ([s], r5) else ([], r4)
            | [] => ([], r4)
          let eds := r5.takeWhile Char.isDigit
          if eds.isEmpty then some (.float (String.mk (ds ++ '.' :: fr)), r3)
          else some (.float (String.mk (ds ++ '.' :: fr ++ e :: es ++ eds)),
                     r5.drop eds.length)
        else some (.float (String.mk (ds ++ '.' :: fr)), r3)
      | [] => some (.float (String.mk (ds ++ '.' :: fr)), r3)
    | e :: r2 =>
      if e = 'e' ∨ e = 'E' then
        let (es, r3) : List Char × List Char :=
          match r2 with
          | s :: r3 => if s = '+' ∨ s = '-' then ([s], r3) else ([], r2)
          | [] => ([], r2)
        let eds := r3.takeWhile Char.isDigit
        if eds.isEmpty then
          if 1 < ds.length ∧ ds.head? = some '0' then Option.none
          else some (.int (natOfDigits ds : Nat), rest)
        else some (.float (String.mk (ds ++ e :: es ++ eds)), r3.drop eds.length)
      else
        if 1 < ds.length ∧ ds.head? = some '0' then Option.none
        else some (.int (natOfDigits ds : Nat), rest)
    | [] =>
      if 1 < ds.length ∧ ds.head? = some '0' then Option.none
      else some (.int (natOfDigits ds : Nat), rest)

/-- Keyword test for the literal keywords. -/
def litKeyword (w : List Char) (l : List Char) : Bool :=
  w.isPrefixOf l && (match (l.drop w.length).head? with
                     | some c => !(isIdentChar c)
                     | Option.none => true)

/-- Command argument for the flattened Python-literal parser (`pyLitP`). -/
inductive PCmd where
  | lit (l : List Char)
  | seq (l : List Char) (isTup : Bool) (acc : List PyVal)
  | paren (l : List Char)
  | dictItems (l : List Char) (acc : List (PyVal × PyVal))

/-- Fueled Python-literal recursive descent: the values `ast.literal_eval`
accepts on keyword arguments (numbers with an optional sign, strings,
lists, tuples, dicts, `True`/`False`/`None`).  Sets and complex numbers
are not modelled; on them this parser fails where `literal_eval` would
succeed, sending such calls to the permissive fallback. -/
def pyLitP : Nat → PCmd → Option (PyVal × List Char)
  | 0, _ => Option.none
  | fuel + 1, .lit l0 =>
    match l0.dropWhile Char.isWhitespace with
    | [] => Option.none
    | c :: rest =>
      if c = '-' ∨ c = '+' then
        match parseNumber (rest.dropWhile Char.isWhitespace) with
        | some (.int n, r) => some (.int (if c = '-' then -n else n), r)
        | some (.float raw, r) => some (.float (String.mk [c] ++ raw), r)
        | _ => Option.none
      else if c.isDigit then parseNumber (c :: rest)
      else if c = '"' ∨ c = squote then
        (parsePyStrBody c (rest.length + 1) rest).map
          (fun p => (PyVal.str (String.mk p.1), p.2))
      else if c = '[' then pyLitP fuel (.seq rest false [])
      else if c = '(' then pyLitP fuel (.paren rest)
      else if c = '{' then pyLitP fuel (.dictItems rest [])
      else if litKeyword "True".toList (c :: rest) then
        some (.bool true, (c :: rest).drop 4)
      else if litKeyword "False".toList (c :: rest) then
        some (.bool false, (c :: rest).drop 5)
      else if litKeyword "None".toList (c :: rest) then
        some (.none, (c :: rest).drop 4)
      else Option.none
  | fuel + 1, .seq l0 isTup acc =>
    let close : Char := if isTup then ')' else ']'
    let mk : List PyVal → PyVal := if isTup then PyVal.tuple else PyVal.list
    match l0.dropWhile Char.isWhitespace with
    | [] => Option.none
    | c :: rest =>
      if c = close then some (mk acc.reverse, rest)
      else
        match pyLitP fuel (.lit (c :: rest)) with
        | Option.none => Option.none
        | some (v, r) =>
          match r.dropWhile Char.isWhitespace with
          | ',' :: r2 => pyLitP fuel (.seq r2 isTup (v :: acc))
          | c2 :: r2 =>
            if c2 = close then some (mk (v :: acc).reverse, r2) else Option.none
          | [] => Option.none
  | fuel + 1, .paren l0 =>
    match l0.dropWhile Char.isWhitespace with
    | [] => Option.none
    | c :: rest =>
      if c = ')' then some (.tuple [], rest)
      else
        match pyLitP fuel (.lit (c :: rest)) with
        | Option.none => Option.none
        | some (v, r) =>
          match r.dropWhile Char.isWhitespace with
          | ')' :: r2 => some (v, r2)
          | ',' :: r2 => pyLitP fuel (.seq r2 true [v])
          | _ => Option.none
  | fuel + 1, .dictItems l0 acc =>
    match l0.dropWhile Char.isWhitespace with
    | [] => Option.none
    | c :: rest =>
      if c = '}' then some (.dict acc.reverse, rest)
      else
        match pyLitP fuel (.lit (c :: rest)) with
        | Option.none => Option.none
        | some (k, r) =>
          match r.dropWhile Char.isWhitespace with
          | ':' :: r2 =>
            match pyLitP fuel (.lit r2) with
            | Option.none => Option.none
            | some (v, r3) =>
              match r3.dropWhile Char.isWhitespace with
              | ',' :: r4 => pyLitP fuel (.dictItems r4 ((k, v) :: acc))
              | '}' :: r4 => some (.dict ((k, v) :: acc).reverse, r4)
              | _ => Option.none
          | _ => Option.none

/-- One Python literal. -/
def parseLit (fuel : Nat) (l : List Char) : Option (PyVal × List Char) :=
  pyLitP fuel (.lit l)

/-- `ast.literal_eval` on an argument text: one literal, nothing else. -/
def literalEvalChars (l : List Char) : Option PyVal :=
  match parseLit (2 * l.length + 2) l with
  | some (v, r) => if (r.dropWhile Char.isWhitespace).isEmpty then some v else Option.none
  | Option.none => Option.none

/-- Reserved words that cannot be keyword names. -/
def reservedIdent (idt : List Char) : Bool :=
  idt = "True".toList ∨ idt = "False".toList ∨ idt = "None".toList

/-- Arguments of the strict call grammar: keyword arguments `name=literal`
collected in order, positional literal/name arguments accepted and ignored
(`parse_action` reads only `call.keywords`; positional arguments after a
keyword are a syntax error).  After each argument, a comma continues and
the closing parenthesis ends the list. -/
def parseArgs : Nat → List Char → Bool → List (String × PyVal) →
    Option (List (String × PyVal) × List Char)
  | 0, _, _, _ => Option.none
  | fuel + 1, l0, seenKw, acc =>
    match l0.dropWhile Char.isWhitespace with
    | [] => Option.none
    | c :: rest =>
      if c = ')' then some (acc.reverse, rest)
      else
        let idt := (c :: rest).takeWhile isIdentChar
        if idt.isEmpty = false ∧ reservedIdent idt = false then
          match ((c :: rest).drop idt.length).dropWhile Char.isWhitespace with
          | '=' :: r2 =>
            match r2 with
            | '=' :: _ => Option.none
            | _ =>
              match parseLit (2 * r2.length + 2) r2 with
              | Option.none => Option.none
              | some (v, r3) =>
                match r3.dropWhile Char.isWhitespace with
                | ',' :: r4 => parseArgs fuel r4 true ((String.mk idt, v) :: acc)
                | ')' :: r4 => some (((String.mk idt, v) :: acc).reverse, r4)
                | _ => Option.none
          | _ => Option.none
        else
          if seenKw then Option.none
          else
            match parseLit (2 * (c :: rest).length + 2) (c :: rest) with
            | Option.none => Option.none
            | some (_, r3) =>
              match r3.dropWhile Char.isWhitespace with
              | ',' :: r4 => parseArgs fuel r4 seenKw acc
              | ')' :: r4 => some (acc.reverse, r4)
              | _ => Option.none

/-- The strict branch of `parse_action` (`handler.py` lines 565–584):
escape control characters, parse as a Python expression, demand a
`do(…)`/`finish(…)` call, `literal_eval` each keyword value, build the
action dict from `{"_metadata": …}` by keyword assignments.  The result is
the call head and the keyword list; any failure (`SyntaxError` or
`ValueError`) is `Option.none`, after which the caller runs the fallback —
exactly as the `except (SyntaxError, ValueError)` in the source. -/
def astParseCallRaw (l : List Char) : Option (String × List (String × PyVal)) :=
  let t := escapeControl l
  let t1 := t.dropWhile Char.isWhitespace
  let idt := t1.takeWhile isIdentChar
  let fn := String.mk idt
  if fn = "do" ∨ fn = "finish" then
    match (t1.drop idt.length).dropWhile Char.isWhitespace with
    | '(' :: r2 =>
      match parseArgs (2 * r2.length + 2) r2 false [] with
      | some (kws, rest) =>
        if (rest.dropWhile Char.isWhitespace).isEmpty then some (fn, kws)
        else Option.none
      | Option.none => Option.none
    | _ => Option.none
  else Option.none

/-- Assembly of the strict-branch action dict (`handler.py` lines
578–584). -/
def astParseCall (l : List Char) : Option PyDict :=
  (astParseCallRaw l).map (fun p =>
    p.2.foldl (fun d kv => dictSet d kv.1 kv.2)
      [("_metadata", PyVal.str (if p.1 = "do" then "do" else "finish"))])

/-- `_split_top_level_args` (`handler.py` lines 348–399): split on commas
outside quotes, brackets and braces, with escape handling; parts are
stripped and empty parts dropped. -/
def splitTLA : List Char → List Char → Nat → Nat → Option Char → Bool →
    List (List Char)
  | [], buf, _, _, _, _ =>
    let part := trimChars buf
    if part.isEmpty then [] else [part]
  | c :: rest, buf, dSq, dCu, inQ, esc =>
    if esc then splitTLA rest (buf ++ [c]) dSq dCu inQ false
    else if c = bslash then splitTLA rest (buf ++ [c]) dSq dCu inQ true
    else
      match inQ with
      | some q =>
        if c = q then splitTLA rest (buf ++ [c]) dSq dCu Option.none false
        else splitTLA rest (buf ++ [c]) dSq dCu inQ false
      | Option.none =>
        if c = squote ∨ c = '"' then splitTLA rest (buf ++ [c]) dSq dCu (some c) false
        else
          let dSq' := if c = '[' then dSq + 1 else if c = ']' then dSq - 1 else dSq
          let dCu' := if c = '{' then dCu + 1 else if c = '}' then dCu - 1 else dCu
          if c = ',' ∧ dSq' = 0 ∧ dCu' = 0 then
            let part := trimChars buf
            (if part.isEmpty then [] else [part]) ++
              splitTLA rest [] dSq' dCu' Option.none false
          else splitTLA rest (buf ++ [c]) dSq' dCu' Option.none false

/-- `_parse_loose_string` (`handler.py` lines 401–415): strip; if quoted,
take the text between the first quote and the last matching quote, resolve
the three textual escapes, and strip again. -/
def parseLooseString (value : List Char) : List Char :=
  let v := trimChars value
  match v with
  | [] => []
  | c :: _ =>
    if c = squote ∨ c = '"' then
      let inner :=
        match findLastIdx v c with
        | some e => if 0 < e then (v.drop 1).take (e - 1) else v.drop 1
        | Option.none => v.drop 1
      trimChars (replaceSub (replaceSub (replaceSub inner
        [bslash, 'n'] ['\n']) [bslash, 'r'] ['\r']) [bslash, 't'] ['\t'])
    else v

/-- Split at the first occurrence of `c` (Python `str.split(c, 1)`). -/
def splitOnceBy (l : List Char) (c : Char) : Option (List Char × List Char) :=
  match l.findIdx? (fun d => d = c) with
  | some i => some (l.take i, l.drop (i + 1))
  | Option.none => Option.none

/-- Strip all leading and trailing occurrences of `c` (Python
`str.strip('"')`). -/
def stripCharEnds (l : List Char) (c : Char) : List Char :=
  ((l.dropWhile (fun d => d = c)).reverse.dropWhile (fun d => d = c)).reverse

/-- Processing of one fallback argument part (`handler.py` lines 435–463):
split on the first `=` (or `:`), clean the key, take loose-string values
for the string-typed keys, `literal_eval` (with loose-string fallback) for
the rest. -/
def procPart (d : PyDict) (part : List Char) : PyDict :=
  match splitOnceBy part '=' with
  | some (k, raw) => procAssign d k raw
  | Option.none =>
    match splitOnceBy part ':' with
    | some (k, raw) => procAssign d k raw
    | Option.none => d
where
  procAssign (d : PyDict) (k raw : List Char) : PyDict :=
    let key := String.mk (stripCharEnds (stripCharEnds (trimChars k) '"') squote)
    let rawv := trimChars raw
    if key = "message" ∨ key = "text" ∨ key = "app" ∨ key = "action" ∨
        key = "duration" then
      dictSet d key (.str (String.mk (parseLooseString rawv)))
    else
      match literalEvalChars (escapeControl rawv) with
      | some v => dictSet d key v
      | Option.none => dictSet d key (.str (String.mk (parseLooseString rawv)))

/-- `_fallback_parse_call` (`handler.py` lines 417–464). -/
def fallbackParseCall (l : List Char) : Option PyDict :=
  let t := trimChars l
  if ("do(".toList.isPrefixOf t ∨ "finish(".toList.isPrefixOf t) = false then
    Option.none
  else
    match t.findIdx? (fun c => c = '('), findLastIdx t ')' with
    | some oi, some ci =>
      if ci ≤ oi then Option.none
      else
        let fn := trimChars (t.take oi)
        let argsStr := trimChars ((t.drop (oi + 1)).take (ci - oi - 1))
        let md : String := if fn = "do".toList then "do" else "finish"
        let base : PyDict := [("_metadata", PyVal.str md)]
        if argsStr.isEmpty then some base
        else some ((splitTLA argsStr [] 0 0 Option.none false).foldl procPart base)
    | _, _ => Option.none

/-- The strict-then-fallback tail of `parse_action` (`handler.py` lines
565–590): strict parse, then the permissive fallback.  All raised
`ValueError`s are `Option.none`. -/
def parseCallPath (r2 : List Char) : Option PyDict :=
  match astParseCall r2 with
  | some d => some d
  | Option.none => fallbackParseCall r2

/-- The pipeline after wrapper stripping: bare-JSON branch, else extract
the first call, normalize, and run the call path. -/
def parseAfterStrip (stripped : List Char) : Option PyDict :=
  match jsonBranch stripped with
  | some d => some d
  | Option.none => parseCallPath (normalizeCommonTypos (extractFirstCall stripped))

/-- `parse_action` (`handler.py` lines 333–592) on character lists: strip
wrappers, try the bare-JSON branch, extract the first call, normalize
typos, strict parse, permissive fallback. -/
def parseActionChars (l : List Char) : Option PyDict :=
  parseAfterStrip (stripWrappers l)

/-- `parse_action` on strings. -/
def parse_action (s : String) : Option PyDict := parseActionChars s.toList

/-! ## Claim C3 — shape of parsed action records -/

theorem dictGet_dictSet_self (d : PyDict) (k : String) (v : PyVal) :
    dictGet (dictSet d k v) k = some v := by
  induction d with
  | nil => simp [dictSet, dictGet]
  | cons p rest ih =>
    by_cases h : p.1 = k
    · simp [dictSet, dictGet, h]
    · simp [dictSet, dictGet, h, ih]

theorem dictGet_dictSet_ne (d : PyDict) (k k' : String) (v : PyVal)
    (h : k' ≠ k) : dictGet (dictSet d k' v) k = dictGet d k := by
  induction d with
  | nil => simp [dictSet, dictGet, h]
  | cons p rest ih =>
    by_cases hp : p.1 = k'
    · simp [dictSet, dictGet, hp, h]
    · simp only [dictSet, hp, if_false]
      by_cases hk : p.1 = k
      · simp [dictGet, hk]
      · simp [dictGet, hk, ih]

theorem dictGet_isSome_dictSet (d : PyDict) (k k' : String) (v : PyVal)
    (h : (dictGet d k).isSome = true) :
    (dictGet (dictSet d k' v) k).isSome = true := by
  by_cases he : k' = k
  · subst he
    simp [dictGet_dictSet_self]
  · rw [dictGet_dictSet_ne d k k' v he]
    exact h

theorem foldl_dictSet_isSome (kvs : List (String × PyVal)) (d : PyDict)
    (k : String) (h : (dictGet d k).isSome = true) :
    (dictGet (kvs.foldl (fun d kv => dictSet d kv.1 kv.2) d) k).isSome = true := by
  induction kvs generalizing d with
  | nil => exact h
  | cons kv rest ih =>
    exact ih (dictSet d kv.1 kv.2) (dictGet_isSome_dictSet d k kv.1 kv.2 h)

theorem procPart_isSome (d : PyDict) (part : List Char) (k : String)
    (h : (dictGet d k).isSome = true) :
    (dictGet (procPart d part) k).isSome = true := by
  have assign : ∀ (kk raw : List Char),
      (dictGet (procPart.procAssign d kk raw) k).isSome = true := by
    intro kk raw
    simp only [procPart.procAssign]
    split
    · exact dictGet_isSome_dictSet d k _ _ h
    · split
      · exact dictGet_isSome_dictSet d k _ _ h
      · exact dictGet_isSome_dictSet d k _ _ h
  unfold procPart
  split
  · exact assign _ _
  · split
    · exact assign _ _
    · exact h

theorem foldl_procPart_isSome (parts : List (List Char)) (d : PyDict)
    (k : String) (h : (dictGet d k).isSome = true) :
    (dictGet (parts.foldl procPart d) k).isSome = true := by
  induction parts generalizing d with
  | nil => exact h
  | cons p rest ih => exact ih (procPart d p) (procPart_isSome d p k h)

theorem jsonBranch_metadata (l : List Char) (d : PyDict)
    (h : jsonBranch l = some d) : (dictGet d "_metadata").isSome = true := by
  unfold jsonBranch at h
  split at h
  · split at h
    · split at h
      · split at h
        · injection h with h
          subst h
          assumption
        · injection h with h
          subst h
          simp [dictGet_dictSet_self]
      · cases h
    · cases h
  · cases h

theorem astParseCall_metadata (l : List Char) (d : PyDict)
    (h : astParseCall l = some d) : (dictGet d "_metadata").isSome = true := by
  unfold astParseCall at h
  cases hr : astParseCallRaw l with
  | none => rw [hr] at h; cases h
  | some p =>
    rw [hr] at h
    injection h with h
    subst h
    exact foldl_dictSet_isSome p.2 _ "_metadata" (by simp [dictGet])

theorem fallbackParseCall_metadata (l : List Char) (d : PyDict)
    (h : fallbackParseCall l = some d) : (dictGet d "_metadata").isSome = true := by
  simp only [fallbackParseCall] at h
  split at h
  · cases h
  · split at h
    · split at h
      · cases h
      · split at h
        · injection h with h
          subst h
          simp [dictGet]
        · injection h with h
          subst h
          exact foldl_procPart_isSome _ _ "_metadata" (by simp [dictGet])
    · cases h

/-- C3 (counterexample): the claim says every successfully parsed record is
either finish-tagged or carries one of the fourteen enumerated action
names.  The parser validates nothing of the sort: `do(action="Fly")`
parses, is tagged `do` (not `finish`), and `"Fly"` is not an enumerated
name — the interpreter, not the parser, later rejects it with an
"Unknown action" failure. -/
theorem C3_counterexample :
    parse_action "do(action=\"Fly\")" =
      some [("_metadata", PyVal.str "do"), ("action", PyVal.str "Fly")]
    ∧ "Fly" ∉ actionNames
    ∧ (ActionHandler.execute envRefuse
        [("_metadata", PyVal.str "do"), ("action", PyVal.str "Fly")] 1000 1000) =
      (⟨false, false, some (.str "Unknown action: Fly"), false⟩, []) :=
  ⟨rfl, by decide, rfl⟩

/-- C3 (amended): every record `parse_action` returns carries a
`_metadata` key (`"do"`/`"finish"` from the call head on the call paths,
synthesized or passed through on the bare-JSON path), but the `action`
field is not validated against the enumerated names — any action name is
accepted by the parser, and unknown names are rejected only at execution
time by the interpreter. -/
theorem C3_amended (s : String) (d : PyDict) (h : parse_action s = some d) :
    (dictGet d "_metadata").isSome = true := by
  have callPath : ∀ (r2 : List Char) (d : PyDict), parseCallPath r2 = some d →
      (dictGet d "_metadata").isSome = true := by
    intro r2 d h
    unfold parseCallPath at h
    split at h
    · rename_i d0 ha
      injection h with h
      subst h
      exact astParseCall_metadata _ _ ha
    · exact fallbackParseCall_metadata _ _ h
  have afterStrip : ∀ (L : List Char) (d : PyDict), parseAfterStrip L = some d →
      (dictGet d "_metadata").isSome = true := by
    intro L d h
    unfold parseAfterStrip at h
    split at h
    · rename_i d0 hj
      injection h with h
      subst h
      exact jsonBranch_metadata _ _ hj
    · exact callPath _ _ h
  exact afterStrip _ _ h

/-- C3 (witness): the amended theorem applied to the concrete input
`finish()`. -/
theorem C3_witness :
    (dictGet [("_metadata", PyVal.str "finish")] "_metadata").isSome = true :=
  C3_amended "finish()" [("_metadata", PyVal.str "finish")] rfl

/-! ## Agent loop — `PhoneAgent` (`agent.py`)

The loop is driven by an `AgentEnv` of oracles: per-step screenshots and
foreground app, model replies in request order, and the two callbacks.  The
`World` tracks the agent state together with how many screenshots were
taken, how many model requests were made, and the event trace of the
interpreter.  Console printing (`verbose`) has no observable effect on the
state and is not modelled. -/

/-- One part of a message's content. -/
inductive ContentPart where
  | text (s : String)
  | image (b64 : String)

/-- A conversation message. -/
structure Message where
  role : String
  parts : List ContentPart

/-- Modelled from the spec: `MessageBuilder.create_user_message` of the
missing `phone_agent/model/client.py` — "The content of a user message is
either plain text or an ordered list whose items are text chunks and image
references." -/
def MessageBuilder.create_user_message (text : String) (image : Option String) :
    Message :=
  ⟨"user", ContentPart.text text ::
    (match image with
     | some b => [ContentPart.image b]
     | Option.none => [])⟩

/-- Modelled from the spec: `MessageBuilder.create_system_message`. -/
def MessageBuilder.create_system_message (text : String) : Message :=
  ⟨"system", [ContentPart.text text]⟩

/-- Modelled from the spec: `MessageBuilder.create_assistant_message`. -/
def MessageBuilder.create_assistant_message (text : String) : Message :=
  ⟨"assistant", [ContentPart.text text]⟩

/-- Image parts. -/
def isImagePart : ContentPart → Bool
  | .image _ => true
  | .text _ => false

/-- Modelled from the spec: `MessageBuilder.remove_images_from_message` —
"the image of that step's user message is removed from the context (it
becomes text-only)". -/
def MessageBuilder.remove_images_from_message (m : Message) : Message :=
  ⟨m.role, m.parts.filter (fun p => !(isImagePart p))⟩

/-- Whether a message still carries an image. -/
def msgHasImage (m : Message) : Bool := m.parts.any isImagePart

/-- Modelled from the spec: `MessageBuilder.build_screen_info` — the
"Screen Info" text derived from the current app; its wording is not fixed
by the spec and no claim depends on it. -/
def MessageBuilder.build_screen_info (current_app : String) : String :=
  "当前应用: " ++ current_app

/-- A model reply split into thinking and action text. -/
structure ModelResponse where
  thinking : String
  action : String

/-- One screenshot. -/
structure Frame where
  width : Int
  height : Int
  base64_data : String

/-- Oracles for the loop's collaborators: the `n`-th screenshot and
foreground app, the `n`-th model request's outcome, and the callbacks. -/
structure AgentEnv where
  frame : Nat → Frame
  current_app : Nat → String
  model : Nat → Except String ModelResponse
  confirmation_callback : PyVal → Bool
  launch_result : PyVal → Bool

/-- The handler's view of the environment. -/
def AgentEnv.handler (env : AgentEnv) : HandlerEnv :=
  ⟨env.confirmation_callback, env.launch_result⟩

/-- `AgentConfig` (`agent.py` lines 18–36), restricted to the fields the
loop reads (`lang` and `verbose` only affect console output; the
`system_prompt` default computed in `__post_init__` is carried as an
opaque string). -/
structure AgentConfig where
  max_steps : Nat
  system_prompt : String
  use_thirdparty_prompt : Bool
  thirdparty_thinking : Bool

/-- The mutable state of a `PhoneAgent` (`agent.py` lines 89–94). -/
structure AgentState where
  context : List Message
  step_count : Nat
  last_screen_hash : Option String
  screen_unchanged_steps : Nat
  recent_action_signatures : List String
  stuck_warnings : Nat

/-- A world: agent state plus the observable interaction counters. -/
structure World where
  agent : AgentState
  frames_taken : Nat
  model_calls : Nat
  events : List Event

/-- `StepResult` (`agent.py` lines 39–47). -/
structure StepResult where
  success : Bool
  finished : Bool
  action : Option PyDict
  thinking : String
  message : Option PyVal

/-- `PhoneAgent._screen_hash` (`agent.py` lines 96–98): SHA-1 of the
base64 bytes.  Only equality of hashes is ever consulted, so the hash is
modelled as the identity fingerprint of the base64 text (collisions of
SHA-1 are disregarded). -/
def PhoneAgent.screen_hash (base64_data : String) : String := base64_data

/-- `PhoneAgent._action_signature` (`agent.py` lines 100–117). -/
def PhoneAgent.action_signature (action : PyDict) : String :=
  match dictGet action "_metadata" with
  | some (PyVal.str "finish") => "finish"
  | _ =>
    match dictGet action "action" with
    | some (PyVal.str "Tap") => "Tap:" ++ pyStrOpt (dictGet action "element")
    | some (PyVal.str "Swipe") =>
      "Swipe:" ++ pyStrOpt (dictGet action "start") ++ "->" ++
        pyStrOpt (dictGet action "end")
    | some (PyVal.str "Type") => "Type:" ++ pyStrOpt (dictGet action "text")
    | some (PyVal.str "Launch") => "Launch:" ++ pyStrOpt (dictGet action "app")
    | some (PyVal.str "Wait") => "Wait:" ++ pyStrOpt (dictGet action "duration")
    | some (PyVal.str "Take_over") => "Take_over"
    | n => pyStrOpt n

/-- `PhoneAgent._looks_like_loop` (`agent.py` lines 119–127). -/
def PhoneAgent.looks_like_loop (signatures : List String) : Bool :=
  if signatures.length < 6 then false
  else
    let last6 := signatures.drop (signatures.length - 6)
    match last6 with
    | a :: b :: _ =>
      if a = b then last6.all (fun x => x = a)
      else last6 == [a, b, a, b, a, b]
    | _ => false

/-- `deque(maxlen=12).append` (`agent.py` line 93). -/
def ringAppend (xs : List String) (s : String) : List String :=
  let ys := xs ++ [s]
  if 12 < ys.length then ys.drop (ys.length - 12) else ys

/-- Screen-hash bookkeeping at the top of `_execute_step` (`agent.py`
lines 195–200): the unchanged counter is updated first, then the hash is
stored. -/
def updateScreenState (st : AgentState) (hash : String) : AgentState :=
  let st' :=
    if st.last_screen_hash = some hash then
      {st with screen_unchanged_steps := st.screen_unchanged_steps + 1}
    else
      {st with screen_unchanged_steps := 0}
  {st' with last_screen_hash := some hash}

/-- The takeover message of the stuck-override (`agent.py` line 210). -/
def stuckTakeoverMessage : String :=
  "检测到长时间无界面变化且动作可能循环，请手动进入目标页面（例如 QQ 钱包/余额页），完成后按回车继续。"

/-- The synthesized `do(action="Take_over", message=…)` of the
stuck-override (`agent.py` lines 208–211). -/
def overrideAction : PyDict :=
  mkDo [("action", PyVal.str "Take_over"), ("message", PyVal.str stuckTakeoverMessage)]

/-- The stuck-recovery hint appended to the prompt (`agent.py` lines
256–261). -/
def stuckHintText : String :=
  "\n\n你可能卡住了（界面长时间未变化或动作重复）。请改变策略：例如先确保在 QQ 的“我的/个人中心”页，再进入“钱包/余额”；必要时可尝试下拉/搜索；如需登录/验证码请输出：do(action=\"Take_over\", message=\"需要你手动登录/验证\")。"

/-- Tail instruction in third-party thinking mode (`agent.py` line 264). -/
def tailThinking : String := "按规范输出 <think>/<answer>（think 尽量简短），每步只输出一个动作。"

/-- Tail instruction in third-party no-thinking mode (`agent.py` line 266). -/
def tailPlain : String := "只输出一个动作代码，不要解释。"

/-- The third-party per-step user text (`agent.py` lines 268–273),
parameterized by its four variable pieces. -/
def thirdpartyStepText (screen_info history_text stuck_hints tail_instruction :
    String) : String :=
  "继续执行任务。当前屏幕信息：" ++ screen_info ++ "\n\n" ++
    "最近动作(供参考)：\n" ++ history_text ++ stuck_hints ++ "\n\n" ++
    tail_instruction

/-- Python interpolation of an optional string (`str(None) = "None"`). -/
def optStr : Option String → String
  | some s => s
  | Option.none => "None"

/-- Message assembly of `_execute_step` (`agent.py` lines 221–281): the
first step embeds the prompt (system role in native mode, inlined in
third-party mode); later third-party steps add recent-action history and,
when the screen is frozen for ≥ 2 steps or a loop pattern is detected,
increment `stuck_warnings` and include the recovery hint. -/
def buildMessages (cfg : AgentConfig) (st : AgentState) (screen_info : String)
    (user_prompt : Option String) (is_first : Bool) (img : String) : AgentState :=
  if is_first then
    if cfg.use_thirdparty_prompt then
      {st with context := st.context ++
        [MessageBuilder.create_user_message
          (cfg.system_prompt ++ "\n\n---\n任务: " ++ optStr user_prompt ++
            "\n\n" ++ screen_info) (some img)]}
    else
      {st with context := st.context ++
        [MessageBuilder.create_system_message cfg.system_prompt,
         MessageBuilder.create_user_message
           (optStr user_prompt ++ "\n\n" ++ screen_info) (some img)]}
  else
    if cfg.use_thirdparty_prompt then
      let recent := st.recent_action_signatures.drop
        (st.recent_action_signatures.length - 6)
      let history_text :=
        if recent.isEmpty then "(无)"
        else String.intercalate "\n" (recent.map (fun s => "- " ++ s))
      let tail := if cfg.thirdparty_thinking then tailThinking else tailPlain
      if 2 ≤ st.screen_unchanged_steps ∨
          PhoneAgent.looks_like_loop st.recent_action_signatures = true then
        {st with
          stuck_warnings := st.stuck_warnings + 1,
          context := st.context ++
            [MessageBuilder.create_user_message
              (thirdpartyStepText screen_info history_text stuckHintText tail)
              (some img)]}
      else
        {st with context := st.context ++
          [MessageBuilder.create_user_message
            (thirdpartyStepText screen_info history_text "" tail) (some img)]}
    else
      {st with context := st.context ++
        [MessageBuilder.create_user_message
          ("** Screen Info **\n\n" ++ screen_info) (some img)]}

/-- The assistant-turn text recorded in the context (`agent.py` lines
305–320 and 354–371): XML-wrapped except in third-party no-thinking
mode. -/
def assistantText (cfg : AgentConfig) (resp : ModelResponse) : String :=
  if cfg.use_thirdparty_prompt then
    if cfg.thirdparty_thinking then
      "<think>" ++ resp.thinking ++ "</think><answer>" ++ resp.action ++ "</answer>"
    else resp.action
  else
    "<think>" ++ resp.thinking ++ "</think><answer>" ++ resp.action ++ "</answer>"

/-- `self._context[-1] = remove_images_from_message(self._context[-1])`
(`agent.py` line 302). -/
def stripLastImage : List Message → List Message
  | [] => []
  | [m] => [MessageBuilder.remove_images_from_message m]
  | m :: rest => m :: stripLastImage rest

/-- The re-output-request user text of the third-party parse retry
(`agent.py` lines 338–348).  The interpolated exception text `{e}` is
abstracted to a fixed placeholder; no claim depends on it. -/
def retryText (raw_action : String) : String :=
  "上一步输出的动作代码无法解析。\n原始输出: " ++ raw_action ++
    "\n解析错误: (解析错误详情)\n\n请重新输出。优先按规范使用 <think>/<answer>，但必须保证动作可解析；如果不支持 XML 标签，则直接输出 1 行动作代码。\n示例：\n<think>点击搜索</think><answer>do(action=\"Tap\", element=[500, 500])</answer>\n或\nfinish(message=\"任务完成\")"

/-- The parse-failure termination message (`agent.py` line 381), with the
interpolated exception abstracted to a fixed placeholder. -/
def parseFailMessage : String := "动作解析失败，无法继续执行：(解析错误详情)"

/-- The terminating result after exhausted parse attempts (`agent.py`
lines 375–382). -/
def parseFailResult (resp : ModelResponse) : StepResult :=
  ⟨false, true, Option.none, resp.thinking, some (.str parseFailMessage)⟩

/-- Signature tracking and execution at the tail of `_execute_step`
(`agent.py` lines 384–426): push the signature into the ring, execute via
the handler, and finish when the record is finish-tagged or the handler
says so; the step message is `result.message or action.get("message")`. -/
def execPhase (env : AgentEnv) (w : World) (resp : ModelResponse) (a : PyDict)
    (shot : Frame) : World × StepResult :=
  let sig := PhoneAgent.action_signature a
  let st := {w.agent with
             recent_action_signatures :=
               ringAppend w.agent.recent_action_signatures sig}
  let res := ActionHandler.execute env.handler a shot.width shot.height
  let finished :=
    (match dictGet a "_metadata" with
     | some (PyVal.str "finish") => true
     | _ => false) || res.1.should_finish
  ({w with agent := st, events := w.events ++ res.2},
   ⟨res.1.success, finished, some a, resp.thinking,
    pyOrOpt res.1.message (dictGet a "message")⟩)

/-- The parse-and-retry section of `_execute_step` (`agent.py` lines
322–382): parse the reply; on failure in third-party mode append one
re-output-request user message, request the model once more (this second
request is outside the `try`, so a model error escapes the step), record
the assistant turn, and parse again; a second failure — or the first, in
native mode — terminates with the parse-failure result. -/
def parsePhase (cfg : AgentConfig) (env : AgentEnv) (w : World)
    (resp : ModelResponse) (shot : Frame) : Except String (World × StepResult) :=
  match parse_action resp.action with
  | some a => .ok (execPhase env w resp a shot)
  | Option.none =>
    if cfg.use_thirdparty_prompt then
      let w1 : World := {w with agent := {w.agent with context :=
        w.agent.context ++
          [MessageBuilder.create_user_message (retryText resp.action) Option.none]}}
      match env.model w1.model_calls with
      | .error e => .error e
      | .ok resp2 =>
        let w2 : World := {w1 with model_calls := w1.model_calls + 1}
        let w3 : World := {w2 with agent := {w2.agent with context :=
          w2.agent.context ++
            [MessageBuilder.create_assistant_message (assistantText cfg resp2)]}}
        match parse_action resp2.action with
        | some a => .ok (execPhase env w3 resp2 a shot)
        | Option.none => .ok (w3, parseFailResult resp2)
    else .ok (w, parseFailResult resp)

/-- The stuck-override step (`agent.py` lines 202–219): execute the
synthesized takeover without consulting the model. -/
def overrideStep (env : AgentEnv) (w : World) (shot : Frame) : World × StepResult :=
  let res := ActionHandler.execute env.handler overrideAction shot.width shot.height
  ({w with events := w.events ++ res.2},
   ⟨res.1.success, res.1.should_finish, some overrideAction, "", res.1.message⟩)

/-- `PhoneAgent._execute_step` (`agent.py` lines 185–426): step counting,
screenshot and hash bookkeeping, the third-party stuck-override, message
assembly, the model request (an error terminates the step with a
"Model error: …" result, leaving the just-sent user message intact), image
stripping of the sent message, the assistant turn, then parse and
execute. -/
def PhoneAgent.execute_step (cfg : AgentConfig) (env : AgentEnv) (w : World)
    (user_prompt : Option String) (is_first : Bool) :
    Except String (World × StepResult) :=
  let shot := env.frame w.frames_taken
  let app := env.current_app w.frames_taken
  let st0 := updateScreenState {w.agent with step_count := w.agent.step_count + 1}
    (PhoneAgent.screen_hash shot.base64_data)
  let w0 : World := {w with agent := st0, frames_taken := w.frames_taken + 1}
  if cfg.use_thirdparty_prompt = true ∧ 6 ≤ st0.screen_unchanged_steps ∧
      2 ≤ st0.stuck_warnings then
    .ok (overrideStep env w0 shot)
  else
    let st1 := buildMessages cfg st0 (MessageBuilder.build_screen_info app)
      user_prompt is_first shot.base64_data
    let w1 : World := {w0 with agent := st1}
    match env.model w1.model_calls with
    | .error e =>
      .ok ({w1 with model_calls := w1.model_calls + 1},
           ⟨false, true, Option.none, "", some (.str ("Model error: " ++ e))⟩)
    | .ok resp =>
      let w2 : World := {w1 with
                         model_calls := w1.model_calls + 1,
                         agent := {st1 with context := stripLastImage st1.context}}
      let w3 : World := {w2 with agent := {w2.agent with context :=
        w2.agent.context ++
          [MessageBuilder.create_assistant_message (assistantText cfg resp)]}}
      parsePhase cfg env w3 resp shot

/-- Python `result.message or "Task completed"`. -/
def pyOrStr (a : Option PyVal) (dflt : String) : PyVal :=
  match a with
  | some v => if pyTruthy v then v else .str dflt
  | Option.none => .str dflt

/-- The reset at the top of `PhoneAgent.run` (`agent.py` lines 139–140):
only the context and the step counter are cleared. -/
def PhoneAgent.runStart (st : AgentState) : AgentState :=
  {st with context := [], step_count := 0}

/-- The `while self._step_count < max_steps` loop of `run` (`agent.py`
lines 149–155), written with fuel: every `_execute_step` increases
`step_count` by exactly one (`execute_step_step_count` below), so from
`step_count = 1` the guard fails after at most `max_steps - 1` iterations
and fuel `max_steps` never runs out before the guard does — the fueled
loop therefore coincides with the source's while loop. -/
def PhoneAgent.runLoop (cfg : AgentConfig) (env : AgentEnv) :
    Nat → World → Except String (World × PyVal)
  | 0, w => .ok (w, PyVal.str "Max steps reached")
  | fuel + 1, w =>
    if w.agent.step_count < cfg.max_steps then
      match PhoneAgent.execute_step cfg env w Option.none false with
      | .error e => .error e
      | .ok (w', r) =>
        if r.finished then .ok (w', pyOrStr r.message "Task completed")
        else PhoneAgent.runLoop cfg env fuel w'
    else .ok (w, PyVal.str "Max steps reached")

/-- `PhoneAgent.run` (`agent.py` lines 129–155): clear context and step
counter, run the first step with the task, then loop while the budget
lasts; the final value is the step message (or "Task completed") on
finish, else "Max steps reached". -/
def PhoneAgent.run (cfg : AgentConfig) (env : AgentEnv) (w : World)
    (task : String) : Except String (World × PyVal) :=
  let w' : World := {w with agent := PhoneAgent.runStart w.agent}
  match PhoneAgent.execute_step cfg env w' (some task) true with
  | .error e => .error e
  | .ok (w1, r) =>
    if r.finished then .ok (w1, pyOrStr r.message "Task completed")
    else PhoneAgent.runLoop cfg env cfg.max_steps w1

/-- `PhoneAgent.reset` (`agent.py` lines 176–183): clears all six state
fields. -/
def PhoneAgent.reset (_st : AgentState) : AgentState :=
  ⟨[], 0, Option.none, 0, [], 0⟩

/-! ## Bookkeeping lemmas for the step function -/

theorem updateScreenState_fields (st : AgentState) (h : String) :
    (updateScreenState st h).step_count = st.step_count
    ∧ (updateScreenState st h).stuck_warnings = st.stuck_warnings
    ∧ (updateScreenState st h).context = st.context
    ∧ (updateScreenState st h).recent_action_signatures =
        st.recent_action_signatures := by
  unfold updateScreenState
  split <;> simp

theorem buildMessages_fields (cfg : AgentConfig) (st : AgentState)
    (info : String) (p : Option String) (f : Bool) (img : String) :
    (buildMessages cfg st info p f img).step_count = st.step_count
    ∧ (buildMessages cfg st info p f img).last_screen_hash = st.last_screen_hash
    ∧ (buildMessages cfg st info p f img).screen_unchanged_steps =
        st.screen_unchanged_steps
    ∧ (buildMessages cfg st info p f img).recent_action_signatures =
        st.recent_action_signatures := by
  unfold buildMessages
  split
  · split <;> simp
  · split
    · split <;> split <;> simp
    · simp

theorem parsePhase_preserves (cfg : AgentConfig) (env : AgentEnv) (w : World)
    (resp : ModelResponse) (shot : Frame) {w' : World} {r : StepResult}
    (h : parsePhase cfg env w resp shot = .ok (w', r)) :
    w'.agent.step_count = w.agent.step_count
    ∧ w'.frames_taken = w.frames_taken
    ∧ w'.agent.stuck_warnings = w.agent.stuck_warnings
    ∧ w'.agent.screen_unchanged_steps = w.agent.screen_unchanged_steps
    ∧ w'.agent.last_screen_hash = w.agent.last_screen_hash := by
  simp only [parsePhase] at h
  split at h
  · rename_i a ha
    injection h with h
    have hw : (execPhase env w resp a shot).1 = w' := congrArg Prod.fst h
    subst hw
    simp [execPhase]
  · split at h
    · split at h
      · cases h
      · rename_i resp2 hm
        split at h
        · rename_i a2 ha2
          injection h with h
          have hw :
              (execPhase env
                {w with
                  model_calls := w.model_calls + 1,
                  agent := {w.agent with context :=
                    (w.agent.context ++
                      [MessageBuilder.create_user_message (retryText resp.action)
                        Option.none]) ++
                      [MessageBuilder.create_assistant_message
                        (assistantText cfg resp2)]}}
                resp2 a2 shot).1 = w' := congrArg Prod.fst h
          subst hw
          simp [execPhase]
        · injection h with h
          injection h with h1 h2
          subst h1
          simp
    · injection h with h
      injection h with h1 h2
      subst h1
      simp

theorem execute_step_counters (cfg : AgentConfig) (env : AgentEnv) (w : World)
    (p : Option String) (f : Bool) {w' : World} {r : StepResult}
    (h : PhoneAgent.execute_step cfg env w p f = .ok (w', r)) :
    w'.agent.step_count = w.agent.step_count + 1
    ∧ w'.frames_taken = w.frames_taken + 1 := by
  simp only [PhoneAgent.execute_step] at h
  have hu := updateScreenState_fields
    {w.agent with step_count := w.agent.step_count + 1}
    (PhoneAgent.screen_hash (env.frame w.frames_taken).base64_data)
  have hb := buildMessages_fields cfg
    (updateScreenState {w.agent with step_count := w.agent.step_count + 1}
      (PhoneAgent.screen_hash (env.frame w.frames_taken).base64_data))
    (MessageBuilder.build_screen_info (env.current_app w.frames_taken)) p f
    (env.frame w.frames_taken).base64_data
  split at h
  · injection h with h
    have hw : _ = w' := congrArg Prod.fst h
    subst hw
    simp only [overrideStep]
    exact ⟨hu.1, by simp⟩
  · split at h
    · injection h with h
      injection h with h1 h2
      subst h1
      exact ⟨by simp only []; rw [hb.1, hu.1], rfl⟩
    · have hp := parsePhase_preserves _ _ _ _ _ h
      refine ⟨?_, ?_⟩
      · rw [hp.1]
        simp only []
        rw [hb.1, hu.1]
      · rw [hp.2.1]

/-! ## Claim C10 — what `run` resets versus what `reset` clears -/

/-- C10: `run` begins by clearing only the conversation context and the
step counter (`runStart`); the screen hash, the unchanged-screen counter,
the recent-action ring and the stuck counter keep their values from the
previous task, so stuck/loop detection in a new task starts from the
previous task's state; only an explicit `reset` clears those four.  The
final conjunct exhibits that `run` routes its first step through exactly
this partial reset. -/
theorem C10_run_reset (st : AgentState) :
    (PhoneAgent.runStart st).context = []
    ∧ (PhoneAgent.runStart st).step_count = 0
    ∧ (PhoneAgent.runStart st).last_screen_hash = st.last_screen_hash
    ∧ (PhoneAgent.runStart st).screen_unchanged_steps = st.screen_unchanged_steps
    ∧ (PhoneAgent.runStart st).recent_action_signatures =
        st.recent_action_signatures
    ∧ (PhoneAgent.runStart st).stuck_warnings = st.stuck_warnings
    ∧ (PhoneAgent.reset st).last_screen_hash = Option.none
    ∧ (PhoneAgent.reset st).screen_unchanged_steps = 0
    ∧ (PhoneAgent.reset st).recent_action_signatures = []
    ∧ (PhoneAgent.reset st).stuck_warnings = 0
    ∧ (∀ (cfg : AgentConfig) (env : AgentEnv) (w : World) (task : String),
        PhoneAgent.run cfg env w task =
          (match PhoneAgent.execute_step cfg env
              {w with agent := PhoneAgent.runStart w.agent} (some task) true with
           | .error e => .error e
           | .ok (w1, r) =>
             if r.finished then .ok (w1, pyOrStr r.message "Task completed")
             else PhoneAgent.runLoop cfg env cfg.max_steps w1)) :=
  ⟨rfl, rfl, rfl, rfl, rfl, rfl, rfl, rfl, rfl, rfl, fun _ _ _ _ => rfl⟩

/-! ## Claims C5 and C6 — stuck-override and stuck-warning bookkeeping -/

/-- A third-party-mode configuration. -/
def cfgThird : AgentConfig := ⟨10, "SP", true, true⟩

/-- A native-mode configuration with budget 2. -/
def cfgNative : AgentConfig := ⟨2, "SP", false, true⟩

/-- A native-mode configuration with budget 0. -/
def cfgZero : AgentConfig := ⟨0, "SP", false, true⟩

/-- A constant screenshot. -/
def frameC : Frame := ⟨1000, 2000, "IMG"⟩

/-- A model reply whose action is always `do(action="Back")`. -/
def respBack : ModelResponse := ⟨"", "do(action=\"Back\")"⟩

/-- Environment: constant screen, model always answering `Back`. -/
def envBack : AgentEnv :=
  ⟨fun _ => frameC, fun _ => "home", fun _ => .ok respBack,
   fun _ => true, fun _ => true⟩

/-- Environment whose screen differs from the stale hash below. -/
def envNew : AgentEnv :=
  ⟨fun _ => ⟨1000, 2000, "NEW"⟩, fun _ => "home", fun _ => .ok respBack,
   fun _ => true, fun _ => true⟩

/-- A world that begins a step with `screen_unchanged_steps = 6` and
`stuck_warnings = 2`, whose stored hash will not match `envNew`'s frame. -/
def wStale : World := ⟨⟨[], 0, some "OLD", 6, [], 2⟩, 0, 0, []⟩

/-- A world in the same stuck configuration whose stored hash matches
`envBack`'s frame. -/
def wStuck : World := ⟨⟨[], 0, some "IMG", 6, [], 2⟩, 0, 0, []⟩

/-- C5 (counterexample): the claim triggers the override whenever a step
*begins* with `screen_unchanged_steps ≥ 6` and `stuck_warnings ≥ 2`.  The
source evaluates the condition only after the screen-hash update: when the
new frame differs, the counter resets to 0, the override is skipped and
the model *is* called (one model request is made and the executed action
is the model's `Back`, not the synthesized `Take_over`) even though the
step began with counters 6 and 2 in third-party mode. -/
theorem C5_counterexample :
    cfgThird.use_thirdparty_prompt = true
    ∧ wStale.agent.screen_unchanged_steps = 6
    ∧ wStale.agent.stuck_warnings = 2
    ∧ (PhoneAgent.execute_step cfgThird envNew wStale Option.none false).map
        (fun out => (out.1.model_calls, out.2.action)) =
      .ok (1, some [("_metadata", PyVal.str "do"), ("action", PyVal.str "Back")]) :=
  ⟨rfl, rfl, rfl, by rfl⟩

/-- C5 (amended): in third-party mode, whenever *after the screen-hash
update* the unchanged counter is ≥ 6 and `stuck_warnings ≥ 2`, the step
makes no model request: it executes the synthesized
`do(action="Take_over", message=…)` via the interpreter (the takeover
callback is the only event) and returns that result. -/
theorem C5_amended (cfg : AgentConfig) (env : AgentEnv) (w : World)
    (p : Option String) (f : Bool)
    (hc : cfg.use_thirdparty_prompt = true)
    (hu : 6 ≤ (updateScreenState {w.agent with step_count := w.agent.step_count + 1}
      (PhoneAgent.screen_hash (env.frame w.frames_taken).base64_data)).screen_unchanged_steps)
    (hw : 2 ≤ w.agent.stuck_warnings) :
    PhoneAgent.execute_step cfg env w p f =
      .ok ({w with
            agent := updateScreenState
              {w.agent with step_count := w.agent.step_count + 1}
              (PhoneAgent.screen_hash (env.frame w.frames_taken).base64_data),
            frames_taken := w.frames_taken + 1,
            events := w.events ++ [Event.takeover (PyVal.str stuckTakeoverMessage)]},
           ⟨true, false, some overrideAction, "", Option.none⟩) := by
  have hst : (updateScreenState {w.agent with step_count := w.agent.step_count + 1}
      (PhoneAgent.screen_hash (env.frame w.frames_taken).base64_data)).stuck_warnings
      = w.agent.stuck_warnings :=
    (updateScreenState_fields _ _).2.1
  simp only [PhoneAgent.execute_step]
  rw [if_pos ⟨hc, hu, by rw [hst]; exact hw⟩]
  rfl

/-- C5 (witness): the amended theorem at a concrete stuck world whose
stored hash matches the next frame (the updated counter is 7 ≥ 6). -/
theorem C5_witness :
    PhoneAgent.execute_step cfgThird envBack wStuck Option.none false =
      .ok ({wStuck with
            agent := updateScreenState
              {wStuck.agent with step_count := wStuck.agent.step_count + 1}
              (PhoneAgent.screen_hash (envBack.frame wStuck.frames_taken).base64_data),
            frames_taken := wStuck.frames_taken + 1,
            events := wStuck.events ++
              [Event.takeover (PyVal.str stuckTakeoverMessage)]},
           ⟨true, false, some overrideAction, "", Option.none⟩) :=
  C5_amended cfgThird envBack wStuck Option.none false rfl (by decide) (by decide)

/-- The stuck branch of `buildMessages` increments `stuck_warnings` by
exactly one on non-first third-party steps. -/
theorem buildMessages_stuck_incr (cfg : AgentConfig) (st : AgentState)
    (info img : String) (hc : cfg.use_thirdparty_prompt = true)
    (hs : 2 ≤ st.screen_unchanged_steps ∨
      PhoneAgent.looks_like_loop st.recent_action_signatures = true) :
    (buildMessages cfg st info Option.none false img).stuck_warnings =
      st.stuck_warnings + 1 := by
  simp only [buildMessages, hc, Bool.false_eq_true, if_false, if_true]
  rw [if_pos hs]

/-- A world frozen on the same screen for five steps in native mode. -/
def wFrozen : World := ⟨⟨[], 0, some "IMG", 5, [], 0⟩, 0, 0, []⟩

/-- A world whose next step sees the screen unchanged for the second time
(third-party mode, no override). -/
def wWarm : World := ⟨⟨[], 0, some "IMG", 1, [], 0⟩, 0, 0, []⟩

/-- C6 (counterexample): the claim says stuck_warnings is incremented on
*every* step where the screen has been unchanged for ≥ 2 steps.  The
source's stuck bookkeeping lives in the third-party prompt branch only: in
native mode, a step whose updated unchanged counter is 6 (≥ 2) leaves
`stuck_warnings` at 0. -/
theorem C6_counterexample :
    (updateScreenState {wFrozen.agent with
        step_count := wFrozen.agent.step_count + 1}
      (PhoneAgent.screen_hash (envBack.frame 0).base64_data)).screen_unchanged_steps = 6
    ∧ cfgNative.use_thirdparty_prompt = false
    ∧ (PhoneAgent.execute_step cfgNative envBack wFrozen Option.none false).map
        (fun out => out.1.agent.stuck_warnings) = .ok 0 :=
  ⟨by rfl, rfl, by rfl⟩

/-- C6 (amended): in third-party mode, on every non-first step that does
not hit the stuck-override, if after the screen-hash update the screen has
been unchanged for ≥ 2 steps or the recorded signatures flag a loop, the
step increments `stuck_warnings` by one and the user message built for
that step carries the stuck-recovery hint; the loop predicate never fires
with fewer than six recorded signatures.  (Native mode performs none of
this bookkeeping — see the counterexample.) -/
theorem C6_amended (cfg : AgentConfig) (env : AgentEnv) (w : World)
    (hc : cfg.use_thirdparty_prompt = true)
    (hno : ¬(cfg.use_thirdparty_prompt = true ∧
      6 ≤ (updateScreenState {w.agent with step_count := w.agent.step_count + 1}
        (PhoneAgent.screen_hash (env.frame w.frames_taken).base64_data)).screen_unchanged_steps ∧
      2 ≤ (updateScreenState {w.agent with step_count := w.agent.step_count + 1}
        (PhoneAgent.screen_hash (env.frame w.frames_taken).base64_data)).stuck_warnings))
    (hs : 2 ≤ (updateScreenState {w.agent with step_count := w.agent.step_count + 1}
        (PhoneAgent.screen_hash (env.frame w.frames_taken).base64_data)).screen_unchanged_steps ∨
      PhoneAgent.looks_like_loop w.agent.recent_action_signatures = true) :
    (∀ (w' : World) (r : StepResult),
      PhoneAgent.execute_step cfg env w Option.none false = .ok (w', r) →
      w'.agent.stuck_warnings = w.agent.stuck_warnings + 1)
    ∧ (∀ (st : AgentState) (info img : String),
        2 ≤ st.screen_unchanged_steps ∨
          PhoneAgent.looks_like_loop st.recent_action_signatures = true →
        (buildMessages cfg st info Option.none false img).context =
          st.context ++ [MessageBuilder.create_user_message
            (thirdpartyStepText info
              (if (st.recent_action_signatures.drop
                    (st.recent_action_signatures.length - 6)).isEmpty then "(无)"
               else String.intercalate "\n"
                 ((st.recent_action_signatures.drop
                    (st.recent_action_signatures.length - 6)).map
                   (fun s => "- " ++ s)))
              stuckHintText
              (if cfg.thirdparty_thinking then tailThinking else tailPlain))
            (some img)])
    ∧ (∀ sigs : List String, sigs.length < 6 →
        PhoneAgent.looks_like_loop sigs = false) := by
  have hring : (updateScreenState {w.agent with
      step_count := w.agent.step_count + 1}
      (PhoneAgent.screen_hash (env.frame w.frames_taken).base64_data)).recent_action_signatures
      = w.agent.recent_action_signatures :=
    (updateScreenState_fields _ _).2.2.2
  have hstuck0 : (updateScreenState {w.agent with
      step_count := w.agent.step_count + 1}
      (PhoneAgent.screen_hash (env.frame w.frames_taken).base64_data)).stuck_warnings
      = w.agent.stuck_warnings :=
    (updateScreenState_fields _ _).2.1
  refine ⟨?_, ?_, ?_⟩
  · intro w' r h
    simp only [PhoneAgent.execute_step] at h
    rw [if_neg hno] at h
    have hincr := buildMessages_stuck_incr cfg
      (updateScreenState {w.agent with step_count := w.agent.step_count + 1}
        (PhoneAgent.screen_hash (env.frame w.frames_taken).base64_data))
      (MessageBuilder.build_screen_info (env.current_app w.frames_taken))
      (env.frame w.frames_taken).base64_data hc (by rw [hring]; exact hs)
    split at h
    · injection h with h
      injection h with h1 h2
      subst h1
      simp only []
      rw [hincr, hstuck0]
    · have hp := parsePhase_preserves _ _ _ _ _ h
      rw [hp.2.2.1]
      simp only []
      rw [hincr, hstuck0]
  · intro st info img hs2
    simp only [buildMessages, hc, Bool.false_eq_true, if_false, if_true]
    rw [if_pos hs2]
  · intro sigs hlen
    simp [PhoneAgent.looks_like_loop, hlen]

/-- C6 (witness): the amended theorem at a concrete third-party world
whose screen is unchanged for the second step. -/
theorem C6_witness :
    ∃ out, PhoneAgent.execute_step cfgThird envBack wWarm Option.none false = .ok out
      ∧ out.1.agent.stuck_warnings = wWarm.agent.stuck_warnings + 1 :=
  ⟨_, rfl,
    (C6_amended cfgThird envBack wWarm rfl (by decide) (Or.inl (by decide))).1 _ _ rfl⟩

/-! ## Claim C7 — parse-failure retry policy -/

/-- C7: the retry section of `_execute_step`.  In third-party mode a parse
failure appends exactly one re-output-request user message, makes exactly
one more model request, records the retry reply as an assistant turn, and
a second parse failure terminates the step with the parse-failure result
(`success = false`, `finished = true`).  In native mode the first parse
failure terminates immediately: the world is untouched (no retry message,
no further model request). -/
theorem C7_parse_retry (cfg : AgentConfig) (env : AgentEnv) (w : World)
    (resp : ModelResponse) (shot : Frame) :
    (cfg.use_thirdparty_prompt = true →
      parse_action resp.action = Option.none →
      ∀ resp2 : ModelResponse, env.model w.model_calls = .ok resp2 →
      parse_action resp2.action = Option.none →
      parsePhase cfg env w resp shot =
        .ok ({w with
              model_calls := w.model_calls + 1,
              agent := {w.agent with context := w.agent.context ++
                [MessageBuilder.create_user_message (retryText resp.action)
                   Option.none,
                 MessageBuilder.create_assistant_message
                   (assistantText cfg resp2)]}},
             parseFailResult resp2))
    ∧ (cfg.use_thirdparty_prompt = false →
      parse_action resp.action = Option.none →
      parsePhase cfg env w resp shot = .ok (w, parseFailResult resp)) := by
  constructor
  · intro hc hp resp2 hm hp2
    simp only [parsePhase, hp, hc, if_true, hm, hp2]
    simp [List.append_assoc]
  · intro hc hp
    simp only [parsePhase, hp, hc, Bool.false_eq_true, if_false]

/-- An unparseable model reply. -/
def respGarbage : ModelResponse := ⟨"", "garbage("⟩

/-- Environment whose model always replies with another unparseable
string. -/
def envGarbage : AgentEnv :=
  ⟨fun _ => frameC, fun _ => "home", fun _ => .ok ⟨"", "@@@"⟩,
   fun _ => true, fun _ => true⟩

/-- A running world with one prior model call and some context. -/
def wMid : World :=
  ⟨⟨[MessageBuilder.create_assistant_message "prev"], 1, some "IMG", 0, [], 0⟩,
   1, 1, []⟩

/-- C7 (witness): both branches of the retry theorem at concrete inputs —
in third-party mode the step makes exactly one more model request and
terminates with `finished = true` and `success = false`; in native mode
the world is returned untouched with the parse-failure result. -/
theorem C7_witness :
    (∃ out, parsePhase cfgThird envGarbage wMid respGarbage frameC = .ok out
      ∧ out.2.finished = true ∧ out.2.success = false
      ∧ out.1.model_calls = wMid.model_calls + 1)
    ∧ parsePhase cfgNative envGarbage wMid respGarbage frameC =
        .ok (wMid, parseFailResult respGarbage) :=
  ⟨⟨_, (C7_parse_retry cfgThird envGarbage wMid respGarbage frameC).1 rfl rfl
        ⟨"", "@@@"⟩ rfl rfl, rfl, rfl, rfl⟩,
   (C7_parse_retry cfgNative envGarbage wMid respGarbage frameC).2 rfl rfl⟩

/-! ## Claim C8 — images in the conversation context -/

theorem remove_images_clean (m : Message) :
    msgHasImage (MessageBuilder.remove_images_from_message m) = false := by
  simp only [msgHasImage, MessageBuilder.remove_images_from_message]
  induction m.parts with
  | nil => rfl
  | cons p rest ih =>
    by_cases hp : isImagePart p = true
    · simp [List.filter_cons, hp, ih]
    · simp only [Bool.not_eq_true] at hp
      simp [List.filter_cons, hp, ih]

theorem dropLast_append_single {α : Type} (l : List α) (a : α) :
    (l ++ [a]).dropLast = l := by
  induction l with
  | nil => rfl
  | cons x xs ih =>
    cases xs with
    | nil => rfl
    | cons y ys => simpa using ih

theorem mem_dropLast_mem {α : Type} {l : List α} {a : α}
    (h : a ∈ l.dropLast) : a ∈ l := by
  induction l with
  | nil => simp at h
  | cons x xs ih =>
    cases xs with
    | nil => simp [List.dropLast] at h
    | cons y ys =>
      simp only [List.dropLast] at h
      rcases List.mem_cons.mp h with h1 | h2
      · simp [h1]
      · simp [ih h2]

theorem stripLastImage_clean (ctx : List Message)
    (h : ∀ m ∈ ctx.dropLast, msgHasImage m = false) :
    ∀ m ∈ stripLastImage ctx, msgHasImage m = false := by
  induction ctx with
  | nil => intro m hm; simp [stripLastImage] at hm
  | cons a rest ih =>
    cases rest with
    | nil =>
      intro m hm
      simp only [stripLastImage, List.mem_singleton] at hm
      subst hm
      exact remove_images_clean a
    | cons b rest2 =>
      intro m hm
      simp only [stripLastImage] at hm
      rcases List.mem_cons.mp hm with h1 | h2
      · subst h1
        exact h m (by simp [List.dropLast])
      · exact ih (fun m' hm' => h m' (by simp [List.dropLast, hm'])) m h2

theorem buildMessages_dropLast_clean (cfg : AgentConfig) (st : AgentState)
    (info : String) (p : Option String) (f : Bool) (img : String)
    (h : ∀ m ∈ st.context, msgHasImage m = false) :
    ∀ m ∈ (buildMessages cfg st info p f img).context.dropLast,
      msgHasImage m = false := by
  unfold buildMessages
  split
  · split
    · intro m hm
      simp only [dropLast_append_single] at hm
      exact h m hm
    · intro m hm
      have : st.context ++
          [MessageBuilder.create_system_message cfg.system_prompt,
           MessageBuilder.create_user_message (optStr p ++ "\n\n" ++ info)
             (some img)] =
          (st.context ++ [MessageBuilder.create_system_message cfg.system_prompt])
            ++ [MessageBuilder.create_user_message (optStr p ++ "\n\n" ++ info)
                  (some img)] := by simp
      rw [this, dropLast_append_single] at hm
      rcases List.mem_append.mp hm with h1 | h2
      · exact h m h1
      · rw [List.mem_singleton.mp h2]
        rfl
  · split
    · split <;> split <;>
        (intro m hm
         simp only [dropLast_append_single] at hm
         exact h m hm)
    · intro m hm
      simp only [dropLast_append_single] at hm
      exact h m hm

theorem parsePhase_clean (cfg : AgentConfig) (env : AgentEnv) (w : World)
    (resp : ModelResponse) (shot : Frame) {w' : World} {r : StepResult}
    (hclean : ∀ m ∈ w.agent.context, msgHasImage m = false)
    (h : parsePhase cfg env w resp shot = .ok (w', r)) :
    ∀ m ∈ w'.agent.context, msgHasImage m = false := by
  simp only [parsePhase] at h
  split at h
  · injection h with h
    have hw : _ = w' := congrArg Prod.fst h
    subst hw
    simpa [execPhase] using hclean
  · split at h
    · split at h
      · cases h
      · split at h
        · injection h with h
          have hw : _ = w' := congrArg Prod.fst h
          subst hw
          simp only [execPhase]
          intro m hm
          simp only [List.append_assoc, List.mem_append] at hm
          rcases hm with h1 | h2
          · exact hclean m h1
          · rcases h2 with h1 | h2
            · rw [List.mem_singleton.mp h1]; rfl
            · rw [List.mem_singleton.mp h2]; rfl
        · injection h with h
          injection h with h1 h2
          subst h1
          intro m hm
          simp only [List.append_assoc, List.mem_append] at hm
          rcases hm with h1 | h2
          · exact hclean m h1
          · rcases h2 with h1 | h2
            · rw [List.mem_singleton.mp h1]; rfl
            · rw [List.mem_singleton.mp h2]; rfl
    · injection h with h
      injection h with h1 h2
      subst h1
      exact hclean

/-- Environment whose model request always fails. -/
def envErr : AgentEnv :=
  ⟨fun _ => frameC, fun _ => "home", fun _ => .error "boom",
   fun _ => true, fun _ => true⟩

/-- A fresh world. -/
def wFresh : World := ⟨⟨[], 0, Option.none, 0, [], 0⟩, 0, 0, []⟩

/-- C8 (counterexample): the claim says that after *every* step completes,
the image of that step's user message has been removed.  A step terminated
by a model error returns before the stripping line: the run's final
context ends with the user message still carrying its image (the context
image flags are `[false, true]`: the system turn is clean, the user turn
still has the screenshot). -/
theorem C8_counterexample :
    (PhoneAgent.execute_step cfgNative envErr wFresh (some "任务") true).map
      (fun out => (out.1.agent.context.map msgHasImage, out.2.finished,
        out.2.message)) =
    .ok ([false, true], true, some (PyVal.str "Model error: boom")) := by rfl

/-- C8 (amended): if a step begins with an image-free context, then after
the step every message except possibly the final one is image-free, and
whenever the step does not terminate the run (`finished = false`) the
whole context is image-free — the image of the step's user message has
been stripped.  Only a model-error step (which terminates the run) leaves
its user message's image in place as the final message, so at all times at
most the most recent message carries an image. -/
theorem C8_amended (cfg : AgentConfig) (env : AgentEnv) (w : World)
    (p : Option String) (f : Bool) {w' : World} {r : StepResult}
    (hP : ∀ m ∈ w.agent.context, msgHasImage m = false)
    (h : PhoneAgent.execute_step cfg env w p f = .ok (w', r)) :
    (∀ m ∈ w'.agent.context.dropLast, msgHasImage m = false)
    ∧ (r.finished = false → ∀ m ∈ w'.agent.context, msgHasImage m = false) := by
  simp only [PhoneAgent.execute_step] at h
  have hctx : (updateScreenState {w.agent with
      step_count := w.agent.step_count + 1}
      (PhoneAgent.screen_hash (env.frame w.frames_taken).base64_data)).context
      = w.agent.context :=
    (updateScreenState_fields _ _).2.2.1
  split at h
  · injection h with h
    have hw : _ = w' := congrArg Prod.fst h
    subst hw
    simp only [overrideStep]
    rw [hctx]
    exact ⟨fun m hm => hP m (mem_dropLast_mem hm), fun _ => hP⟩
  · split at h
    · injection h with h
      injection h with h1 h2
      subst h1
      subst h2
      constructor
      · exact buildMessages_dropLast_clean cfg _ _ p f _ (by rw [hctx]; exact hP)
      · intro hfin
        simp at hfin
    · rename_i resp hm
      have hw3clean : ∀ m ∈ (stripLastImage
          (buildMessages cfg
            (updateScreenState {w.agent with
              step_count := w.agent.step_count + 1}
              (PhoneAgent.screen_hash (env.frame w.frames_taken).base64_data))
            (MessageBuilder.build_screen_info (env.current_app w.frames_taken))
            p f (env.frame w.frames_taken).base64_data).context ++
          [MessageBuilder.create_assistant_message (assistantText cfg resp)]),
          msgHasImage m = false := by
        intro m hmem
        rcases List.mem_append.mp hmem with h1 | h2
        · exact stripLastImage_clean _
            (buildMessages_dropLast_clean cfg _ _ p f _ (by rw [hctx]; exact hP))
            m h1
        · rw [List.mem_singleton.mp h2]; rfl
      have hfull := parsePhase_clean _ _ _ _ _ hw3clean h
      exact ⟨fun m hm => hfull m (mem_dropLast_mem hm), fun _ => hfull⟩

/-- C8 (witness): the amended theorem at a concrete first step that
obtains a model reply. -/
theorem C8_witness :
    ∃ out, PhoneAgent.execute_step cfgNative envBack wFresh (some "task") true =
        .ok out
      ∧ ((∀ m ∈ out.1.agent.context.dropLast, msgHasImage m = false)
         ∧ (out.2.finished = false →
            ∀ m ∈ out.1.agent.context, msgHasImage m = false)) :=
  ⟨_, rfl, C8_amended cfgNative envBack wFresh (some "task") true
    (by simp [wFresh]) rfl⟩

/-! ## Claim C4 — step budget -/

/-- Against `envBack` (model always answering `Back`) in any native-mode
configuration, every step succeeds and never finishes. -/
theorem step_back_ok (cfg : AgentConfig) (hc : cfg.use_thirdparty_prompt = false)
    (w : World) (p : Option String) (f : Bool) :
    ∃ w' r, PhoneAgent.execute_step cfg envBack w p f = .ok (w', r)
      ∧ r.finished = false := by
  simp only [PhoneAgent.execute_step]
  rw [if_neg (by simp [hc])]
  exact ⟨_, _, rfl, rfl⟩

/-- Exhaustion of the while loop under a never-finishing model: the loop
runs the guard down to `step_count = max_steps`, returns
"Max steps reached", and takes exactly one frame per counted step. -/
theorem runLoop_exhaust (cfg : AgentConfig) (env : AgentEnv)
    (hstep : ∀ (w0 : World) (p : Option String) (f : Bool),
      ∃ w' r, PhoneAgent.execute_step cfg env w0 p f = .ok (w', r)
        ∧ r.finished = false) :
    ∀ (fuel : Nat) (w : World),
      cfg.max_steps ≤ w.agent.step_count + fuel →
      w.agent.step_count ≤ cfg.max_steps →
      ∃ w', PhoneAgent.runLoop cfg env fuel w =
          .ok (w', PyVal.str "Max steps reached")
        ∧ w'.agent.step_count = cfg.max_steps
        ∧ w'.frames_taken =
            w.frames_taken + (cfg.max_steps - w.agent.step_count) := by
  intro fuel
  induction fuel with
  | zero =>
    intro w h1 h2
    exact ⟨w, rfl, by omega, by omega⟩
  | succ n ih =>
    intro w h1 h2
    by_cases hlt : w.agent.step_count < cfg.max_steps
    · obtain ⟨w1, r1, hs, hf⟩ := hstep w Option.none false
      have hc := execute_step_counters cfg env w Option.none false hs
      obtain ⟨w', hrun, hsc, hfr⟩ := ih w1 (by omega) (by omega)
      refine ⟨w', ?_, hsc, ?_⟩
      · simp only [PhoneAgent.runLoop]
        rw [if_pos hlt, hs]
        simp [hf, hrun]
      · rw [hfr, hc.2, hc.1]
        omega
    · have heq : w.agent.step_count = cfg.max_steps := by omega
      refine ⟨w, ?_, heq, by omega⟩
      simp only [PhoneAgent.runLoop]
      rw [if_neg hlt]

/-- C4 (counterexample): the claim's bound `step_count ≤ max_steps` for
every budget fails at `max_steps = 0`: `run` executes its first step
before any budget check, so the never-finishing run ends with
`step_count = 1 > 0` (and still returns "Max steps reached"). -/
theorem C4_counterexample :
    cfgZero.max_steps = 0
    ∧ (PhoneAgent.run cfgZero envBack wFresh "task").map
        (fun out => (out.1.agent.step_count, out.2)) =
      .ok (1, PyVal.str "Max steps reached") :=
  ⟨rfl, by rfl⟩

/-- C4 (amended): for every budget `max_steps ≥ 1` and a model that never
finishes (every step returns successfully with `finished = false`), the
run returns "Max steps reached" with final `step_count` exactly
`max_steps` (so the bound `step_count ≤ max_steps` holds), and takes
exactly `max_steps` screenshots — within the claim's `max_steps + 1`
frames — with the returned world being the one produced by the final
counted step: the device is not observed again after it. -/
theorem C4_amended (cfg : AgentConfig) (env : AgentEnv) (w : World)
    (task : String) (hmax : 1 ≤ cfg.max_steps)
    (hstep : ∀ (w0 : World) (p : Option String) (f : Bool),
      ∃ w' r, PhoneAgent.execute_step cfg env w0 p f = .ok (w', r)
        ∧ r.finished = false) :
    ∃ w', PhoneAgent.run cfg env w task = .ok (w', PyVal.str "Max steps reached")
      ∧ w'.agent.step_count = cfg.max_steps
      ∧ w'.frames_taken = w.frames_taken + cfg.max_steps := by
  obtain ⟨w1, r1, hs, hf⟩ :=
    hstep {w with agent := PhoneAgent.runStart w.agent} (some task) true
  have hc := execute_step_counters cfg env _ (some task) true hs
  simp only [PhoneAgent.runStart] at hc
  obtain ⟨w', hloop, hsc, hfr⟩ :=
    runLoop_exhaust cfg env hstep cfg.max_steps w1 (by omega) (by omega)
  refine ⟨w', ?_, hsc, ?_⟩
  · simp only [PhoneAgent.run]
    rw [hs]
    simp [hf, hloop]
  · rw [hfr, hc.2, hc.1]
    omega

/-- C4 (witness): the amended theorem at budget 2, the constant-`Back`
model, and a fresh world. -/
theorem C4_witness :
    ∃ w', PhoneAgent.run cfgNative envBack wFresh "task" =
        .ok (w', PyVal.str "Max steps reached")
      ∧ w'.agent.step_count = cfgNative.max_steps
      ∧ w'.frames_taken = wFresh.frames_taken + cfgNative.max_steps :=
  C4_amended cfgNative envBack wFresh "task" (by decide)
    (step_back_ok cfgNative rfl)

/-! ## Claim C9 — parse/serialize round trip for Tap

The amended claim is universal over the integer coordinates, so the proof
works symbolically on the decimal representations `intRepr x`: character
classes of digit runs, a parse/print round trip for `parseNumber`, and
identity lemmas for every phase of the parser pipeline on the template
`do(action="Tap", element=[x,y])`. -/

/-- Backtick character (kept out of source literals). -/
def btick : Char := Char.ofNat 96

/-- Characters a decimal integer rendering consists of. -/
def numCh (c : Char) : Prop := c.isDigit = true ∨ c = '-'

theorem digitCharOf_isDigit {d : Nat} (h : d < 10) :
    (digitCharOf d).isDigit = true := by
  interval_cases d <;> decide

theorem digitCharOf_toNat {d : Nat} (h : d < 10) :
    (digitCharOf d).toNat - 48 = d := by
  interval_cases d <;> decide

theorem digitCharOf_ne_zero {d : Nat} (h0 : d ≠ 0) (h : d < 10) :
    digitCharOf d ≠ '0' := by
  interval_cases d <;> simp_all <;> decide

theorem natReprAux_digits (fuel : Nat) :
    ∀ (n : Nat), ∀ c ∈ natReprAux fuel n, c.isDigit = true := by
  induction fuel with
  | zero => intro n c hc; simp [natReprAux] at hc
  | succ m ih =>
    intro n c hc
    simp only [natReprAux] at hc
    split at hc
    · rename_i hn
      rw [List.mem_singleton.mp hc]
      exact digitCharOf_isDigit hn
    · rcases List.mem_append.mp hc with h1 | h2
      · exact ih _ c h1
      · rw [List.mem_singleton.mp h2]
        exact digitCharOf_isDigit (Nat.mod_lt _ (by omega))

theorem natReprAux_ne_nil (fuel n : Nat) (h : 1 ≤ fuel) :
    natReprAux fuel n ≠ [] := by
  cases fuel with
  | zero => omega
  | succ m =>
    simp only [natReprAux]
    split
    · simp
    · simp

theorem natRepr_digits (n : Nat) : ∀ c ∈ natRepr n, c.isDigit = true :=
  natReprAux_digits (n + 1) n

theorem natRepr_ne_nil (n : Nat) : natRepr n ≠ [] :=
  natReprAux_ne_nil (n + 1) n (by omega)

theorem head?_append_of_ne_nil {α : Type} (A B : List α) (h : A ≠ []) :
    (A ++ B).head? = A.head? := by
  cases A with
  | nil => exact absurd rfl h
  | cons a as => rfl

theorem natReprAux_head_ne_zero (fuel : Nat) :
    ∀ n : Nat, n ≠ 0 → n < 10 ^ fuel →
    (natReprAux fuel n).head? ≠ some '0' := by
  induction fuel with
  | zero =>
    intro n h0 hb
    simp at hb
    omega
  | succ m ih =>
    intro n h0 hb
    simp only [natReprAux]
    split
    · rename_i hn
      simp only [List.head?_cons]
      intro he
      exact digitCharOf_ne_zero h0 hn (Option.some.injEq _ _ ▸ he)
    · rename_i hn
      rw [head?_append_of_ne_nil _ _
        (natReprAux_ne_nil m (n / 10) (by
          by_contra hm
          simp at hm
          subst hm
          simp [pow_succ] at hb
          omega))]
      exact ih (n / 10) (by omega) (by
        have : n < 10 ^ m * 10 := by
          rw [← pow_succ]
          exact hb
        omega)

theorem natOfDigits_append (A B : List Char) :
    natOfDigits (A ++ B) =
      B.foldl (fun a c => a * 10 + (c.toNat - 48)) (natOfDigits A) := by
  simp [natOfDigits, List.foldl_append]

theorem natOfDigits_natReprAux (fuel : Nat) :
    ∀ n : Nat, n < 10 ^ fuel → natOfDigits (natReprAux fuel n) = n := by
  induction fuel with
  | zero =>
    intro n hb
    simp only [pow_zero] at hb
    have hn0 : n = 0 := by omega
    subst hn0
    rfl
  | succ m ih =>
    intro n hb
    simp only [natReprAux]
    split
    · rename_i hn
      simp [natOfDigits, digitCharOf_toNat hn]
    · rename_i hn
      rw [natOfDigits_append]
      simp only [List.foldl_cons, List.foldl_nil]
      rw [ih (n / 10) (by
        have : n < 10 ^ m * 10 := by rw [← pow_succ]; exact hb
        omega)]
      rw [digitCharOf_toNat (Nat.mod_lt _ (by omega))]
      omega

theorem nat_lt_ten_pow_succ (n : Nat) : n < 10 ^ (n + 1) :=
  calc n < 2 ^ n := Nat.lt_two_pow n
    _ ≤ 10 ^ n := Nat.pow_le_pow_left (by omega) n
    _ ≤ 10 ^ (n + 1) := Nat.pow_le_pow_right (by omega) (by omega)

theorem natOfDigits_natRepr (n : Nat) : natOfDigits (natRepr n) = n :=
  natOfDigits_natReprAux (n + 1) n (nat_lt_ten_pow_succ n)

theorem numCh_ne {c d : Char} (h : numCh c) (h1 : d.isDigit = false)
    (h2 : d ≠ '-') : c ≠ d := by
  rcases h with h | h
  · intro he
    subst he
    rw [h1] at h
    cases h
  · subst h
    exact fun he => h2 he.symm

theorem numCh_not_ws {c : Char} (h : numCh c) : c.isWhitespace = false := by
  rcases h with h | h
  · by_contra hw
    rw [Bool.not_eq_false] at hw
    have hw2 : c = ' ' ∨ c = '\t' ∨ c = '\r' ∨ c = '\n' := by
      simpa [Char.isWhitespace, or_assoc] using hw
    rcases hw2 with h1 | h1 | h1 | h1 <;> (subst h1; exact absurd h (by decide))
  · subst h
    decide

theorem dropWhile_head_false {p : Char → Bool} {l : List Char} {c : Char}
    (hh : l.head? = some c) (hp : p c = false) : l.dropWhile p = l := by
  cases l with
  | nil => cases hh
  | cons a as =>
    injection hh with hh
    subst hh
    simp [List.dropWhile, hp]

theorem takeWhile_digit_run (A B : List Char)
    (hA : ∀ c ∈ A, c.isDigit = true)
    (hB : ∀ c, B.head? = some c → c.isDigit = false) :
    (A ++ B).takeWhile Char.isDigit = A := by
  induction A with
  | nil =>
    cases B with
    | nil => rfl
    | cons b bs => simp [List.takeWhile, hB b rfl]
  | cons a as ih =>
    simp [List.takeWhile, hA a (by simp),
      ih (fun c hc => hA c (by simp [hc]))]

theorem parseNumber_natRepr (n : Nat) (B : List Char) (c0 : Char)
    (hB : B.head? = some c0) (hc1 : c0.isDigit = false) (hc2 : c0 ≠ '.')
    (hc3 : c0 ≠ 'e') (hc4 : c0 ≠ 'E') :
    parseNumber (natRepr n ++ B) = some (.int (n : Int), B) := by
  have ht : (natRepr n ++ B).takeWhile Char.isDigit = natRepr n :=
    takeWhile_digit_run _ _ (natRepr_digits n)
      (fun c hc => by rw [hB] at hc; injection hc with hc; exact hc ▸ hc1)
  have hd : (natRepr n ++ B).drop (natRepr n).length = B := List.drop_left _ _
  have hlen : ((natRepr n ++ B).takeWhile Char.isDigit).length = (natRepr n).length := by
    rw [ht]
  simp only [parseNumber, ht, hlen, hd]
  rw [if_neg (by simp [natRepr_ne_nil n])]
  have hzero : ¬(1 < (natRepr n).length ∧ (natRepr n).head? = some '0') := by
    rintro ⟨hl, hh⟩
    have hn10 : 10 ≤ n := by
      by_contra hlt
      simp only [Nat.not_le] at hlt
      have he1 : natRepr n = [digitCharOf n] := by
        simp [natRepr, natReprAux, hlt]
      rw [he1] at hl
      simp at hl
    exact natReprAux_head_ne_zero (n + 1) n (by omega)
      (nat_lt_ten_pow_succ n) hh
  cases B with
  | nil => cases hB
  | cons b bs =>
    have hb : b = c0 := by injection hB
    subst hb
    split
    · rename_i r2 heq
      have h1 : b = '.' := by injection heq
      exact absurd h1 hc2
    · rename_i e2 r2 hne heq
      have h1 : b = e2 := (List.cons.inj heq).1
      have h2 : bs = r2 := (List.cons.inj heq).2
      subst h1
      subst h2
      rw [if_neg (show ¬(b = 'e' ∨ b = 'E') from fun hor => hor.elim hc3 hc4)]
      rw [if_neg hzero]
      rw [natOfDigits_natRepr n]
    · rename_i heq
      cases heq

theorem pyLitP_intRepr (f : Nat) (x : Int) (B : List Char) (c0 : Char)
    (hB : B.head? = some c0) (hc1 : c0.isDigit = false) (hc2 : c0 ≠ '.')
    (hc3 : c0 ≠ 'e') (hc4 : c0 ≠ 'E') :
    pyLitP (f + 1) (.lit (intRepr x ++ B)) = some (.int x, B) := by
  obtain ⟨d, ds, hds⟩ := List.exists_cons_of_ne_nil (natRepr_ne_nil x.natAbs)
  have hdd : d.isDigit = true := by
    have h := natRepr_digits x.natAbs
    rw [hds] at h
    exact h d (by simp)
  have hdw : d.isWhitespace = false := numCh_not_ws (Or.inl hdd)
  have h3 := parseNumber_natRepr x.natAbs B c0 hB hc1 hc2 hc3 hc4
  by_cases hneg : x < 0
  · have hir : intRepr x = '-' :: natRepr x.natAbs := by simp [intRepr, hneg]
    have h1 : ('-' :: (natRepr x.natAbs ++ B)).dropWhile Char.isWhitespace
        = '-' :: (natRepr x.natAbs ++ B) := dropWhile_head_false rfl (by decide)
    have h2 : (natRepr x.natAbs ++ B).dropWhile Char.isWhitespace
        = natRepr x.natAbs ++ B :=
      dropWhile_head_false (by rw [hds]; rfl) hdw
    have h4 : -(x.natAbs : Int) = x := by omega
    simp only [hir, List.cons_append, pyLitP, h1, h2, h3]
    simp
    rw [abs_of_neg hneg, neg_neg]
  · have hir : intRepr x = natRepr x.natAbs := by simp [intRepr, hneg]
    have hcons : natRepr x.natAbs ++ B = d :: (ds ++ B) := by rw [hds]; rfl
    have h1 : (d :: (ds ++ B)).dropWhile Char.isWhitespace = d :: (ds ++ B) :=
      dropWhile_head_false rfl hdw
    rw [hcons] at h3
    have hd1 : ¬(d = '-' ∨ d = '+') := by
      rintro (h | h) <;> (subst h; exact absurd hdd (by decide))
    have h4 : ((x.natAbs : Int)) = x := by omega
    simp only [hir, hcons, pyLitP, h1]
    rw [if_neg hd1, if_pos hdd, h3, h4]

/-- Digit/sign characters of an integer rendering. -/
theorem intRepr_numCh (x : Int) : ∀ c ∈ intRepr x, numCh c := by
  intro c hc
  unfold intRepr at hc
  split at hc
  · rcases List.mem_cons.mp hc with hc | hc
    · exact Or.inr hc
    · exact Or.inl (natRepr_digits _ c hc)
  · exact Or.inl (natRepr_digits _ c hc)

theorem intRepr_ne_nil (x : Int) : intRepr x ≠ [] := by
  unfold intRepr
  split
  · simp
  · exact natRepr_ne_nil _

/-- `strip()` is the identity when both ends are non-whitespace. -/
theorem trimChars_eq_self {l : List Char} {a b : Char}
    (ha : l.head? = some a) (hwa : a.isWhitespace = false)
    (hb : l.getLast? = some b) (hwb : b.isWhitespace = false) :
    trimChars l = l := by
  unfold trimChars
  rw [dropWhile_head_false ha hwa]
  rw [dropWhile_head_false (by rw [List.head?_reverse]; exact hb) hwb]
  exact List.reverse_reverse l

/-- `replace` is the identity when the pattern's first character does not
occur. -/
theorem replaceSubAux_nop (fuel : Nat) (l old new : List Char) (h : Char)
    (hh : old.head? = some h) (hmem : h ∉ l) :
    replaceSubAux fuel l old new = l := by
  induction fuel generalizing l with
  | zero => rfl
  | succ f ih =>
    cases l with
    | nil => rfl
    | cons c rest =>
      rw [replaceSubAux]
      rw [if_neg ?hpre]
      case hpre =>
        rintro ⟨_, hp⟩
        cases old with
        | nil => cases hh
        | cons o os =>
          injection hh with hh1
          subst hh1
          simp only [List.isPrefixOf, Bool.and_eq_true, beq_iff_eq] at hp
          exact hmem (by simp [hp.1])
      rw [ih rest (fun hm => hmem (List.mem_cons_of_mem c hm))]

theorem replaceSub_nop (l old new : List Char) (h : Char)
    (hh : old.head? = some h) (hmem : h ∉ l) : replaceSub l old new = l :=
  replaceSubAux_nop _ _ _ _ h hh hmem

/-- No fenced block without a backtick. -/
theorem findFence_none (l : List Char) (hmem : btick ∉ l) :
    findFence l = Option.none := by
  induction l with
  | nil => rfl
  | cons c rest ih =>
    rw [findFence]
    rw [if_neg ?hpre]
    case hpre =>
      intro hp
      simp only [show "```".toList = [btick, btick, btick] from rfl,
        List.isPrefixOf, Bool.and_eq_true, beq_iff_eq] at hp
      exact hmem (by simp [hp.1.symm]; exact Or.inl rfl)
    exact ih (fun hm => hmem (List.mem_cons_of_mem c hm))

/-- The JSON branch declines anything not starting with a brace. -/
theorem jsonBranch_none (l : List Char) (c : Char) (hc : l.head? = some c)
    (hne : c ≠ '\x7b') : jsonBranch l = Option.none := by
  unfold jsonBranch
  rw [if_neg]
  rintro ⟨h1, _⟩
  rw [hc] at h1
  injection h1 with h1
  exact hne h1

theorem findSub_prefix (l pat : List Char) (h : pat.isPrefixOf l) :
    findSub l pat = some 0 := by
  unfold findSub
  rw [if_pos h]

theorem findSub_none (l pat : List Char) (h : Char)
    (hh : pat.head? = some h) (hmem : h ∉ l) : findSub l pat = Option.none := by
  induction l with
  | nil =>
    unfold findSub
    rw [if_neg ?hpre]
    case hpre =>
      intro hp
      cases pat with
      | nil => cases hh
      | cons o os => simp [List.isPrefixOf] at hp
  | cons c rest ih =>
    unfold findSub
    rw [if_neg ?hpre2]
    case hpre2 =>
      intro hp
      cases pat with
      | nil => cases hh
      | cons o os =>
        injection hh with hh1
        subst hh1
        simp only [List.isPrefixOf, Bool.and_eq_true, beq_iff_eq] at hp
        exact hmem (by simp [hp.1])
    have hr := ih (fun hm => hmem (List.mem_cons_of_mem c hm))
    simp [hr]

/-- Characters that the call-extraction scan copies verbatim outside
quotes without touching the quote state or the depth. -/
def scanPlainCh (c : Char) : Prop :=
  c ≠ squote ∧ c ≠ '"' ∧ c ≠ '(' ∧ c ≠ ')'

instance scanPlainChDec (c : Char) : Decidable (scanPlainCh c) := by
  unfold scanPlainCh
  infer_instance

theorem numCh_scanPlain {c : Char} (h : numCh c) : scanPlainCh c :=
  ⟨numCh_ne h (by decide) (by decide), numCh_ne h (by decide) (by decide),
   numCh_ne h (by decide) (by decide), numCh_ne h (by decide) (by decide)⟩

theorem extractScan_plain {c : Char} (h : scanPlainCh c) (r acc : List Char)
    (d : Int) :
    extractScan (c :: r) Option.none false d acc
      = extractScan r Option.none false d (acc ++ [c]) := by
  obtain ⟨h1, h2, h3, h4⟩ := h
  simp only [extractScan]
  rw [if_neg (fun hor => hor.elim h1 h2), if_neg h3, if_neg h4]

theorem extractScan_plain_run (A : List Char) (hA : ∀ c ∈ A, scanPlainCh c)
    (r acc : List Char) (d : Int) :
    extractScan (A ++ r) Option.none false d acc
      = extractScan r Option.none false d (acc ++ A) := by
  induction A generalizing acc with
  | nil => simp
  | cons a as ih =>
    rw [List.cons_append, extractScan_plain (hA a (by simp)) _ _ _]
    rw [ih (fun c hc => hA c (by simp [hc])) (acc ++ [a])]
    simp

theorem extractScan_quote_enter (q : Char) (hq : q = squote ∨ q = '"')
    (r acc : List Char) (d : Int) :
    extractScan (q :: r) Option.none false d acc
      = extractScan r (some q) false d (acc ++ [q]) := by
  simp only [extractScan]
  rw [if_pos hq]

theorem extractScan_inq_plain {q c : Char} (h1 : c ≠ bslash) (h2 : c ≠ q)
    (r acc : List Char) (d : Int) :
    extractScan (c :: r) (some q) false d acc
      = extractScan r (some q) false d (acc ++ [c]) := by
  simp [extractScan, h1, h2]

theorem extractScan_inq_run (q : Char) (A : List Char)
    (hA : ∀ c ∈ A, c ≠ bslash ∧ c ≠ q) (r acc : List Char) (d : Int) :
    extractScan (A ++ r) (some q) false d acc
      = extractScan r (some q) false d (acc ++ A) := by
  induction A generalizing acc with
  | nil => simp
  | cons a as ih =>
    rw [List.cons_append,
      extractScan_inq_plain (hA a (by simp)).1 (hA a (by simp)).2 _ _ _]
    rw [ih (fun c hc => hA c (by simp [hc])) (acc ++ [a])]
    simp

theorem extractScan_inq_exit (q : Char) (hqb : q ≠ bslash)
    (r acc : List Char) (d : Int) :
    extractScan (q :: r) (some q) false d acc
      = extractScan r Option.none false d (acc ++ [q]) := by
  simp [extractScan, hqb]

theorem extractScan_open (r acc : List Char) (d : Int) :
    extractScan ('(' :: r) Option.none false d acc
      = extractScan r Option.none false (d + 1) (acc ++ ['(']) := by
  have hs : (('(' : Char) = squote) = False := eq_false (by decide)
  simp [extractScan, hs]

theorem extractScan_close_done (r acc : List Char) (d : Int) (h : d - 1 = 0) :
    extractScan (')' :: r) Option.none false d acc = some (acc ++ [')']) := by
  have hs : ((')' : Char) = squote) = False := eq_false (by decide)
  simp [extractScan, hs, h]

/-- The C9 template `do(action="Tap", element=[x,y])` as a character
list. -/
def tapTemplate (x y : Int) : List Char :=
  "do(action=\"Tap\", element=[".toList ++ intRepr x ++ ',' :: intRepr y
    ++ "])".toList

theorem extractScan_tap (x y : Int) :
    extractScan (tapTemplate x y) Option.none false 0 []
      = some (tapTemplate x y) := by
  have hx := fun c hc => numCh_scanPlain (intRepr_numCh x c hc)
  have hy := fun c hc => numCh_scanPlain (intRepr_numCh y c hc)
  have h1 : tapTemplate x y =
      "do".toList ++ ('(' :: ("action=".toList ++ ('"' :: ("Tap".toList ++
        ('"' :: (", element=[".toList ++ (intRepr x ++ ([','] ++
          (intRepr y ++ ([']'] ++ (')' :: []))))))))))) := by
    unfold tapTemplate
    simp [List.append_assoc]
  rw [h1]
  rw [extractScan_plain_run "do".toList (by decide)]
  rw [extractScan_open]
  rw [extractScan_plain_run "action=".toList (by decide)]
  rw [extractScan_quote_enter '"' (Or.inr rfl)]
  rw [extractScan_inq_run '"' "Tap".toList (by decide)]
  rw [extractScan_inq_exit '"' (by decide)]
  rw [extractScan_plain_run ", element=[".toList (by decide)]
  rw [extractScan_plain_run (intRepr x) hx]
  rw [extractScan_plain_run [','] (by decide)]
  rw [extractScan_plain_run (intRepr y) hy]
  rw [extractScan_plain_run [']'] (by decide)]
  rw [extractScan_close_done _ _ _ (by decide)]
  simp [List.append_assoc]

/-- Every character of the template is either in its fixed skeleton or a
digit/sign character of one of the two numbers. -/
theorem tapTemplate_char (x y : Int) {c : Char} (hc : c ∈ tapTemplate x y) :
    c ∈ "do(action=\"Tap\", element=[],)".toList ∨ numCh c := by
  unfold tapTemplate at hc
  rcases List.mem_append.mp hc with h | h
  · rcases List.mem_append.mp h with h | h
    · rcases List.mem_append.mp h with h | h
      · exact Or.inl ((by decide :
          "do(action=\"Tap\", element=[".toList ⊆
            "do(action=\"Tap\", element=[],)".toList) h)
      · exact Or.inr (intRepr_numCh x c h)
    · rcases List.mem_cons.mp h with h | h
      · subst h
        exact Or.inl (by decide)
      · exact Or.inr (intRepr_numCh y c h)
  · exact Or.inl ((by decide :
      "])".toList ⊆ "do(action=\"Tap\", element=[],)".toList) h)

theorem not_mem_tapTemplate {c : Char} (x y : Int)
    (hbase : c ∈ "do(action=\"Tap\", element=[],)".toList → False)
    (hdig : c.isDigit = false) (hdash : c ≠ '-') :
    c ∉ tapTemplate x y := by
  intro hm
  rcases tapTemplate_char x y hm with h | h
  · exact hbase h
  · rcases h with h | h
    · rw [hdig] at h
      cases h
    · exact hdash h

theorem tapTemplate_head (x y : Int) :
    (tapTemplate x y).head? = some 'd' := by
  unfold tapTemplate
  rfl

theorem tapTemplate_last (x y : Int) :
    (tapTemplate x y).getLast? = some ')' := by
  unfold tapTemplate
  rw [List.getLast?_append_of_ne_nil _ (show ("])".toList : List Char) ≠ [] by simp)]
  rfl

theorem trimChars_tap (x y : Int) :
    trimChars (tapTemplate x y) = tapTemplate x y :=
  trimChars_eq_self (tapTemplate_head x y) (by decide)
    (tapTemplate_last x y) (by decide)

/-- The template after its `do(` head. -/
def tapArgsTail (x y : Int) : List Char :=
  "action=\"Tap\", element=[".toList ++ intRepr x ++ ',' :: intRepr y
    ++ "])".toList

theorem tapTemplate_split (x y : Int) :
    tapTemplate x y = 'd' :: 'o' :: '(' :: tapArgsTail x y := by
  unfold tapTemplate tapArgsTail
  simp [List.append_assoc]

theorem stripWrappers_tap (x y : Int) :
    stripWrappers (tapTemplate x y) = tapTemplate x y := by
  have hlt : '<' ∉ tapTemplate x y :=
    not_mem_tapTemplate x y (by decide) (by decide) (by decide)
  have hbt : btick ∉ tapTemplate x y :=
    not_mem_tapTemplate x y (by decide) (by decide) (by decide)
  simp only [stripWrappers, xmlTags, List.foldl]
  rw [trimChars_tap]
  have e1 : replaceSub (tapTemplate x y) "<think>".toList [' ']
      = tapTemplate x y := replaceSub_nop _ _ _ '<' rfl hlt
  have e2 : replaceSub (tapTemplate x y) "</think>".toList [' ']
      = tapTemplate x y := replaceSub_nop _ _ _ '<' rfl hlt
  have e3 : replaceSub (tapTemplate x y) "<answer>".toList [' ']
      = tapTemplate x y := replaceSub_nop _ _ _ '<' rfl hlt
  have e4 : replaceSub (tapTemplate x y) "</answer>".toList [' ']
      = tapTemplate x y := replaceSub_nop _ _ _ '<' rfl hlt
  have e5 : replaceSub (tapTemplate x y) "<tool_call>".toList [' ']
      = tapTemplate x y := replaceSub_nop _ _ _ '<' rfl hlt
  have e6 : replaceSub (tapTemplate x y) "</tool_call>".toList [' ']
      = tapTemplate x y := replaceSub_nop _ _ _ '<' rfl hlt
  rw [e1, e2, e3, e4, e5, e6]
  rw [findFence_none _ hbt]
  exact trimChars_tap x y

theorem extractFirstCall_tap (x y : Int) :
    extractFirstCall (tapTemplate x y) = tapTemplate x y := by
  have hdo : findSub (tapTemplate x y) "do(".toList = some 0 := by
    apply findSub_prefix
    rw [tapTemplate_split]
    simp [List.isPrefixOf]
  have hf : 'f' ∉ tapTemplate x y :=
    not_mem_tapTemplate x y (by decide) (by decide) (by decide)
  have hfin : findSub (tapTemplate x y) "finish(".toList = Option.none :=
    findSub_none _ _ 'f' rfl hf
  unfold extractFirstCall
  rw [hdo, hfin]
  simp only [min_self]
  rw [List.drop_zero]
  rw [extractScan_tap]
  exact trimChars_tap x y

theorem smartMap_numCh {c : Char} (h : numCh c) : smartMap c = c := by
  unfold smartMap
  rw [if_neg (fun hor => hor.elim
      (numCh_ne h (by decide) (by decide)) (numCh_ne h (by decide) (by decide)))]
  rw [if_neg (fun hor => hor.elim
      (numCh_ne h (by decide) (by decide)) (numCh_ne h (by decide) (by decide)))]
  rw [if_neg (numCh_ne h (by decide) (by decide))]
  rw [if_neg (numCh_ne h (by decide) (by decide))]

theorem map_smartMap_tap (x y : Int) :
    (tapTemplate x y).map smartMap = tapTemplate x y := by
  have hptw : ∀ c ∈ tapTemplate x y, smartMap c = c := by
    intro c hc
    rcases tapTemplate_char x y hc with h | h
    · clear hc
      revert h
      revert c
      decide
    · exact smartMap_numCh h
  calc (tapTemplate x y).map smartMap
      = (tapTemplate x y).map id := List.map_congr_left hptw
    _ = tapTemplate x y := List.map_id _

theorem dropQuote_mem {b : Bool} {l l1 : List Char} {c : Char}
    (h : dropQuote b l = some l1) (hc : c ∈ l1) : c ∈ l := by
  by_cases hb : b
  · subst hb
    unfold dropQuote at h
    rw [if_pos rfl] at h
    split at h
    · injection h with h
      subst h
      exact List.mem_cons_of_mem _ hc
    · cases h
  · unfold dropQuote at h
    rw [if_neg hb] at h
    injection h with h
    subst h
    exact hc

theorem passTryKey_colon {qb qa : Bool} {k l r : List Char}
    (h : passTryKey qb qa k l = some r) : ':' ∈ l := by
  unfold passTryKey at h
  cases hdq : dropQuote qb l with
  | none => rw [hdq] at h; cases h
  | some l1 =>
    rw [hdq] at h
    simp only [Option.some_bind] at h
    split at h
    case isTrue hpre =>
      cases hdq2 : dropQuote qa (l1.drop k.length) with
      | none => rw [hdq2] at h; cases h
      | some l2 =>
        rw [hdq2] at h
        simp only [Option.some_bind] at h
        split at h
        case _ r2 heq =>
          have h1 : ':' ∈ l2.dropWhile Char.isWhitespace := by
            rw [heq]
            exact List.mem_cons_self _ _
          have h2 : ':' ∈ l2 := (List.dropWhile_sublist _).mem h1
          have h3 : ':' ∈ l1.drop k.length := dropQuote_mem hdq2 h2
          have h4 : ':' ∈ l1 := List.drop_subset _ _ h3
          exact dropQuote_mem hdq h4
        case _ =>
          cases h
    case isFalse =>
      cases h

theorem passTryKeys_colon {qb qa : Bool} {ks : List (List Char)}
    {l : List Char} {p : List Char × List Char}
    (h : passTryKeys qb qa ks l = some p) : ':' ∈ l := by
  induction ks with
  | nil => cases h
  | cons k ks ih =>
    unfold passTryKeys at h
    split at h
    case _ heq =>
      exact passTryKey_colon heq
    case _ =>
      exact ih h

theorem passRunAux_nop (qb qa bound : Bool) (fuel : Nat) (l : List Char)
    (prevW : Bool) (h : ':' ∉ l) :
    passRunAux qb qa bound fuel l prevW = l := by
  induction fuel generalizing l prevW with
  | zero => rfl
  | succ f ih =>
    cases l with
    | nil => rfl
    | cons c rest =>
      simp only [passRunAux]
      have hnone : (if (if bound then !prevW else true) = true
          then passTryKeys qb qa normKeys (c :: rest) else Option.none)
          = Option.none := by
        cases hk : passTryKeys qb qa normKeys (c :: rest) with
        | some p => exact absurd (passTryKeys_colon hk) h
        | none =>
          by_cases ha : (if bound then !prevW else true) = true
          · rw [if_pos ha]
          · rw [if_neg ha]
      rw [hnone]
      rw [ih rest _ (fun hm => h (List.mem_cons_of_mem c hm))]

theorem passRun_nop (qb qa bound : Bool) (l : List Char) (prevW : Bool)
    (h : ':' ∉ l) : passRun qb qa bound l prevW = l :=
  passRunAux_nop qb qa bound _ l prevW h

theorem normalizeCommonTypos_tap (x y : Int) :
    normalizeCommonTypos (tapTemplate x y) = tapTemplate x y := by
  have hcolon : ':' ∉ tapTemplate x y :=
    not_mem_tapTemplate x y (by decide) (by decide) (by decide)
  simp only [normalizeCommonTypos]
  rw [trimChars_tap, map_smartMap_tap]
  rw [passRun_nop _ _ _ _ _ hcolon, passRun_nop _ _ _ _ _ hcolon,
    passRun_nop _ _ _ _ _ hcolon]
  rw [dropWhile_head_false (l := (tapTemplate x y).reverse)
    (by rw [List.head?_reverse]; exact tapTemplate_last x y) (by decide)]
  exact List.reverse_reverse _

theorem takeWhile_run {p : Char → Bool} (A B : List Char)
    (hA : ∀ c ∈ A, p c = true)
    (hB : ∀ c, B.head? = some c → p c = false) :
    (A ++ B).takeWhile p = A := by
  induction A with
  | nil =>
    cases B with
    | nil => rfl
    | cons b bs => simp [List.takeWhile, hB b rfl]
  | cons a as ih =>
    simp [List.takeWhile, hA a (by simp),
      ih (fun c hc => hA c (by simp [hc]))]

theorem parsePyStrBody_run (q : Char) (A : List Char)
    (hA : ∀ c ∈ A, c ≠ q ∧ c ≠ bslash ∧ c ≠ '\n') (r : List Char) (f : Nat) :
    parsePyStrBody q (f + A.length + 1) (A ++ q :: r) = some (A, r) := by
  induction A generalizing f with
  | nil =>
    show parsePyStrBody q (f + 0 + 1) (q :: r) = some ([], r)
    simp only [parsePyStrBody]
    rw [if_pos trivial]
  | cons a as ih =>
    obtain ⟨h1, h2, h3⟩ := hA a (by simp)
    have hf : f + (a :: as).length + 1 = (f + as.length + 1) + 1 := by
      rw [List.length_cons]
      omega
    rw [hf, List.cons_append]
    simp only [parsePyStrBody]
    rw [if_neg h1, if_neg h2, if_neg h3]
    rw [ih (fun c hc => hA c (by simp [hc])) (f := f)]
    rfl

theorem pyLitP_seq_step (f : Nat) (c : Char) (rest : List Char)
    (acc : List PyVal) (hws : c.isWhitespace = false) :
    pyLitP (f + 1) (.seq (c :: rest) false acc)
      = if c = ']' then some (.list acc.reverse, rest)
        else match pyLitP f (.lit (c :: rest)) with
          | Option.none => Option.none
          | some (v, r) =>
            match r.dropWhile Char.isWhitespace with
            | ',' :: r2 => pyLitP f (.seq r2 false (v :: acc))
            | c2 :: r2 => if c2 = ']' then some (.list (v :: acc).reverse, r2)
                          else Option.none
            | [] => Option.none := by
  simp only [pyLitP]
  rw [dropWhile_head_false (show (c :: rest).head? = some c from rfl) hws]
  rfl

theorem pyLitP_intPair (f : Nat) (x y : Int) (r : List Char) :
    pyLitP (f + 3) (.seq ((intRepr x ++ ',' :: intRepr y) ++ ']' :: r)
      false []) = some (.list [.int x, .int y], r) := by
  obtain ⟨dx, dsx, hdx⟩ := List.exists_cons_of_ne_nil (intRepr_ne_nil x)
  obtain ⟨dy, dsy, hdy⟩ := List.exists_cons_of_ne_nil (intRepr_ne_nil y)
  have hnx : numCh dx := intRepr_numCh x dx (by rw [hdx]; simp)
  have hny : numCh dy := intRepr_numCh y dy (by rw [hdy]; simp)
  have hcx : (intRepr x ++ ',' :: intRepr y) ++ ']' :: r
      = dx :: (dsx ++ (',' :: (intRepr y ++ ']' :: r))) := by
    rw [hdx]
    simp [List.append_assoc]
  have hbackx : dx :: (dsx ++ (',' :: (intRepr y ++ ']' :: r)))
      = intRepr x ++ (',' :: (intRepr y ++ ']' :: r)) := by
    rw [hdx]
    simp
  have hcy : intRepr y ++ ']' :: r = dy :: (dsy ++ ']' :: r) := by
    rw [hdy]
    simp
  have hbacky : dy :: (dsy ++ ']' :: r) = intRepr y ++ (']' :: r) := by
    rw [hdy]
    simp
  have hlit1 : pyLitP (f + 2) (.lit (intRepr x ++ (',' :: (intRepr y ++ ']' :: r))))
      = some (.int x, ',' :: (intRepr y ++ ']' :: r)) := by
    rw [show f + 2 = (f + 1) + 1 from rfl]
    exact pyLitP_intRepr (f + 1) x _ ',' rfl (by decide) (by decide) (by decide)
      (by decide)
  have hlit2 : pyLitP (f + 1) (.lit (intRepr y ++ (']' :: r)))
      = some (.int y, ']' :: r) :=
    pyLitP_intRepr f y _ ']' rfl (by decide) (by decide) (by decide)
      (by decide)
  rw [hcx]
  rw [show f + 3 = (f + 2) + 1 from rfl]
  rw [pyLitP_seq_step _ _ _ _ (numCh_not_ws hnx)]
  rw [if_neg (numCh_ne hnx (by decide) (by decide))]
  rw [hbackx, hlit1]
  show pyLitP (f + 2) (.seq (intRepr y ++ ']' :: r) false [.int x])
      = some (.list [.int x, .int y], r)
  rw [hcy]
  rw [show f + 2 = (f + 1) + 1 from rfl]
  rw [pyLitP_seq_step _ _ _ _ (numCh_not_ws hny)]
  rw [if_neg (numCh_ne hny (by decide) (by decide))]
  rw [hbacky, hlit2]
  rfl

/-- The element-literal part `[x,y])` of the template (after the opening
bracket). -/
def tapElemList (x y : Int) : List Char :=
  (intRepr x ++ ',' :: intRepr y) ++ ']' :: [')']

/-- The template part after the closing quote of `"Tap"`. -/
def tapStrTail (x y : Int) : List Char :=
  ", element=[".toList ++ tapElemList x y

theorem tapArgsTail_split (x y : Int) :
    tapArgsTail x y
      = "action".toList ++ ('=' :: '"' :: 'T' :: 'a' :: 'p' :: '"' ::
          tapStrTail x y) := by
  unfold tapArgsTail tapStrTail tapElemList
  simp [List.append_assoc]

theorem parseLit_tapStr (x y : Int) :
    parseLit (2 * ('"' :: ('T' :: 'a' :: 'p' :: '"' :: tapStrTail x y)).length + 2)
      ('"' :: ('T' :: 'a' :: 'p' :: '"' :: tapStrTail x y))
      = some (.str "Tap", tapStrTail x y) := by
  unfold parseLit
  rw [show 2 * ('"' :: ('T' :: 'a' :: 'p' :: '"' :: tapStrTail x y)).length + 2
      = (2 * ('"' :: ('T' :: 'a' :: 'p' :: '"' :: tapStrTail x y)).length + 1) + 1
      from rfl]
  show (parsePyStrBody '"' (('T' :: 'a' :: 'p' :: '"' :: tapStrTail x y).length + 1)
      ('T' :: 'a' :: 'p' :: '"' :: tapStrTail x y)).map
        (fun p => (PyVal.str (String.mk p.1), p.2))
      = some (.str "Tap", tapStrTail x y)
  rw [show ('T' :: 'a' :: 'p' :: '"' :: tapStrTail x y).length + 1
      = (((tapStrTail x y).length + 1) + ("Tap".toList).length) + 1 from by
    simp [List.length_cons]]
  rw [show ('T' :: 'a' :: 'p' :: '"' :: tapStrTail x y)
      = "Tap".toList ++ ('"' :: tapStrTail x y) from rfl]
  rw [parsePyStrBody_run '"' "Tap".toList (by decide) (tapStrTail x y)
    ((tapStrTail x y).length + 1)]
  rfl

theorem parseLit_tapElem (x y : Int) :
    parseLit (2 * ('[' :: tapElemList x y).length + 2) ('[' :: tapElemList x y)
      = some (.list [.int x, .int y], [')']) := by
  unfold parseLit
  rw [show 2 * ('[' :: tapElemList x y).length + 2
      = (2 * ('[' :: tapElemList x y).length + 1) + 1 from rfl]
  show pyLitP (2 * ('[' :: tapElemList x y).length + 1)
      (.seq (tapElemList x y) false []) = some (.list [.int x, .int y], [')'])
  rw [show 2 * ('[' :: tapElemList x y).length + 1
      = (2 * (tapElemList x y).length) + 3 from by
    simp [List.length_cons]
    omega]
  unfold tapElemList
  exact pyLitP_intPair (2 * (tapElemList x y).length) x y [')']

theorem parseArgs_elem_step (f : Nat) (W : List Char) (v : PyVal)
    (seenKw : Bool) (acc : List (String × PyVal))
    (hlit : parseLit (2 * ('[' :: W).length + 2) ('[' :: W) = some (v, [')'])) :
    parseArgs (f + 1) ("element".toList ++ ('=' :: '[' :: W)) seenKw acc
      = some ((("element", v) :: acc).reverse, []) := by
  simp only [parseArgs]
  rw [show ("element".toList ++ ('=' :: '[' :: W)).dropWhile Char.isWhitespace
      = 'e' :: ("lement".toList ++ ('=' :: '[' :: W)) from rfl]
  simp +decide only [ite_true, ite_false]
  rw [show List.takeWhile isIdentChar ('e' :: ("lement".toList ++ '=' :: '[' :: W))
      = "element".toList from rfl]
  simp +decide only [ite_true, ite_false]
  rw [show List.drop ("element".toList).length
      ('e' :: ("lement".toList ++ '=' :: '[' :: W)) = '=' :: '[' :: W from rfl]
  rw [show List.dropWhile Char.isWhitespace ('=' :: '[' :: W)
      = '=' :: '[' :: W from rfl]
  simp +decide only [ite_true, ite_false]
  rw [hlit]
  rfl

theorem parseArgs_ws (f : Nat) (L : List Char) (k : Bool)
    (acc : List (String × PyVal)) :
    parseArgs (f + 1) (' ' :: L) k acc = parseArgs (f + 1) L k acc := by
  simp only [parseArgs]
  rw [show (' ' :: L).dropWhile Char.isWhitespace
      = L.dropWhile Char.isWhitespace from by simp [List.dropWhile]]

theorem parseArgs_tap (f : Nat) (x y : Int) :
    parseArgs (f + 2) (tapArgsTail x y) false []
      = some ([("action", PyVal.str "Tap"),
               ("element", PyVal.list [PyVal.int x, PyVal.int y])], []) := by
  rw [show f + 2 = (f + 1) + 1 from rfl, tapArgsTail_split]
  have step1 : parseArgs ((f + 1) + 1)
      ("action".toList ++ ('=' :: '"' :: 'T' :: 'a' :: 'p' :: '"' ::
        tapStrTail x y)) false []
      = (match parseLit
            (2 * ('"' :: ('T' :: 'a' :: 'p' :: '"' :: tapStrTail x y)).length + 2)
            ('"' :: ('T' :: 'a' :: 'p' :: '"' :: tapStrTail x y)) with
         | some (v, r3) =>
           (match r3.dropWhile Char.isWhitespace with
            | ',' :: r4 => parseArgs (f + 1) r4 true [("action", v)]
            | ')' :: r4 => some ([("action", v)], r4)
            | _ => Option.none)
         | Option.none => Option.none) := rfl
  rw [step1, parseLit_tapStr]
  show parseArgs (f + 1)
      (' ' :: ("element".toList ++ ('=' :: '[' :: tapElemList x y))) true
      [("action", PyVal.str "Tap")]
      = some ([("action", PyVal.str "Tap"),
               ("element", PyVal.list [PyVal.int x, PyVal.int y])], [])
  rw [parseArgs_ws]
  rw [parseArgs_elem_step f (tapElemList x y) (PyVal.list [.int x, .int y])
    true [("action", PyVal.str "Tap")] (parseLit_tapElem x y)]
  rfl

theorem escapeControl_tap (x y : Int) :
    escapeControl (tapTemplate x y) = tapTemplate x y := by
  have hn : '\n' ∉ tapTemplate x y :=
    not_mem_tapTemplate x y (by decide) (by decide) (by decide)
  have hr : '\r' ∉ tapTemplate x y :=
    not_mem_tapTemplate x y (by decide) (by decide) (by decide)
  have ht : '\t' ∉ tapTemplate x y :=
    not_mem_tapTemplate x y (by decide) (by decide) (by decide)
  have e1 : replaceSub (tapTemplate x y) ['\n'] [bslash, 'n']
      = tapTemplate x y := replaceSub_nop _ _ _ '\n' rfl hn
  have e2 : replaceSub (tapTemplate x y) ['\r'] [bslash, 'r']
      = tapTemplate x y := replaceSub_nop _ _ _ '\r' rfl hr
  have e3 : replaceSub (tapTemplate x y) ['\t'] [bslash, 't']
      = tapTemplate x y := replaceSub_nop _ _ _ '\t' rfl ht
  unfold escapeControl
  rw [e1, e2, e3]

/-- The action record the strict branch produces for the C9 template. -/
def tapDict (x y : Int) : PyDict :=
  [("_metadata", PyVal.str "do"), ("action", PyVal.str "Tap"),
   ("element", PyVal.list [PyVal.int x, PyVal.int y])]

theorem astParseCall_tap (x y : Int) :
    astParseCall (tapTemplate x y) = some (tapDict x y) := by
  have step0 : astParseCallRaw (tapTemplate x y) =
      (match parseArgs (2 * (tapArgsTail x y).length + 2) (tapArgsTail x y)
          false [] with
       | some (kws, rest) =>
         if (rest.dropWhile Char.isWhitespace).isEmpty then some ("do", kws)
         else Option.none
       | Option.none => Option.none) := by
    simp only [astParseCallRaw]
    rw [escapeControl_tap, tapTemplate_split]
    rfl
  unfold astParseCall
  rw [step0, parseArgs_tap (2 * (tapArgsTail x y).length) x y]
  rfl

theorem parse_action_tap (x y : Int) :
    parseActionChars (tapTemplate x y) = some (tapDict x y) := by
  unfold parseActionChars
  rw [stripWrappers_tap]
  unfold parseAfterStrip
  rw [jsonBranch_none _ 'd' (tapTemplate_head x y) (by decide)]
  rw [extractFirstCall_tap, normalizeCommonTypos_tap]
  unfold parseCallPath
  rw [astParseCall_tap]

theorem action_signature_tap (x y : Int) :
    PhoneAgent.action_signature (tapDict x y)
      = "Tap:[" ++ intStr x ++ ", " ++ intStr y ++ "]" := by
  show "Tap:" ++ pyStrOpt (some (PyVal.list [PyVal.int x, PyVal.int y]))
      = "Tap:[" ++ intStr x ++ ", " ++ intStr y ++ "]"
  rw [show pyStrOpt (some (PyVal.list [PyVal.int x, PyVal.int y]))
      = pyRepr (PyVal.list [PyVal.int x, PyVal.int y]) from rfl]
  simp only [pyRepr, pyReprJoin]
  apply String.ext
  simp [String.data_append, intStr, List.append_assoc]

theorem tapTemplate_string (x y : Int) :
    ("do(action=\"Tap\", element=[" ++ intStr x ++ "," ++ intStr y
      ++ "])").toList = tapTemplate x y := by
  show ("do(action=\"Tap\", element=[" ++ intStr x ++ "," ++ intStr y
      ++ "])").data = tapTemplate x y
  simp only [String.data_append, intStr, tapTemplate]
  simp [List.append_assoc]

/-- C9 (counterexample): the claim says that parsing
`do(action="Tap", element=[x,y])` and re-serialising the record to
signature form yields `Tap:[x,y]` exactly.  At x=100, y=200 the parse
succeeds with the expected record, but the signature is `Tap:[100, 200]` —
Python's list formatting inserts a space after the comma — which differs
from the claimed `Tap:[100,200]`. -/
theorem C9_counterexample :
    parse_action "do(action=\"Tap\", element=[100,200])" = some (tapDict 100 200)
    ∧ PhoneAgent.action_signature (tapDict 100 200) = "Tap:[100, 200]"
    ∧ "Tap:[100, 200]" ≠ "Tap:[100,200]" := by
  refine ⟨by rfl, ?_, by decide⟩
  simp [PhoneAgent.action_signature, tapDict, dictGet, pyStrOpt, pyStr,
    pyRepr, pyReprJoin]
  rfl

/-- C9 (amended): for all integers x and y, parsing
`do(action="Tap", element=[x,y])` succeeds with the record
`{_metadata: do, action: Tap, element: [x, y]}`, and re-serialising that
record to signature form yields `Tap:[x, y]` — with Python's comma-space
list formatting — exactly. -/
theorem C9_amended (x y : Int) :
    parse_action ("do(action=\"Tap\", element=[" ++ intStr x ++ ","
        ++ intStr y ++ "])")
      = some (tapDict x y)
    ∧ PhoneAgent.action_signature (tapDict x y)
      = "Tap:[" ++ intStr x ++ ", " ++ intStr y ++ "]" := by
  constructor
  · unfold parse_action
    rw [tapTemplate_string]
    exact parse_action_tap x y
  · exact action_signature_tap x y
